import Mathlib

/-!
# Verification of the anchorpy IDL coder core

A shallow embedding of the dual-format IDL normalization and binary layout
derivation engine: discriminator derivation (SHA-256 based), layout derivation
from IDL types, the account and event coders, and the layout caches.

Bytes are modelled as `Nat` values below 256; byte strings as `List Nat`.
Machine 32-bit arithmetic inside SHA-256 is `Nat` arithmetic reduced
modulo `2^32`.
-/

namespace AnchorPy

/-! ## Little-endian byte serialization (borsh integers use little-endian) -/

/-- Little-endian byte encoding of `v` into exactly `w` bytes. -/
def leBytes : Nat → Nat → List Nat
  | 0, _ => []
  | w + 1, v => (v % 256) :: leBytes w (v / 256)

/-- Little-endian byte decoding. -/
def natFromLE : List Nat → Nat
  | [] => 0
  | b :: bs => b + 256 * natFromLE bs

theorem leBytes_length (w v : Nat) : (leBytes w v).length = w := by
  induction w generalizing v with
  | zero => rfl
  | succ w ih => simp [leBytes, ih]

theorem leBytes_lt (w v : Nat) : ∀ b ∈ leBytes w v, b < 256 := by
  induction w generalizing v with
  | zero => simp [leBytes]
  | succ w ih =>
    intro b hb
    simp only [leBytes, List.mem_cons] at hb
    rcases hb with h | h
    · subst h; omega
    · exact ih _ _ h

theorem natFromLE_leBytes (w v : Nat) (h : v < 256 ^ w) :
    natFromLE (leBytes w v) = v := by
  induction w generalizing v with
  | zero =>
    simp [leBytes, natFromLE]
    omega
  | succ w ih =>
    simp only [leBytes, natFromLE]
    rw [ih (v / 256) (by
      have : 256 ^ (w + 1) = 256 ^ w * 256 := by ring
      omega)]
    omega

/-! ## SHA-256 over byte lists

Embedding of `hashlib.sha256(...).digest()` as used by
`_account_discriminator` and `_event_discriminator`.  32-bit words are `Nat`
values kept below `2^32` by explicit reduction.
-/

/-- 32-bit right rotation. -/
def ror32 (x n : Nat) : Nat :=
  ((x >>> n) ||| (x <<< (32 - n))) % 4294967296

/-- 32-bit bitwise complement. -/
def not32 (x : Nat) : Nat := x ^^^ 4294967295

/-- SHA-256 round constants. -/
def shaK : List Nat :=
  [1116352408, 1899447441, 3049323471, 3921009573,
   961987163, 1508970993, 2453635748, 2870763221,
   3624381080, 310598401, 607225278, 1426881987,
   1925078388, 2162078206, 2614888103, 3248222580,
   3835390401, 4022224774, 264347078, 604807628,
   770255983, 1249150122, 1555081692, 1996064986,
   2554220882, 2821834349, 2952996808, 3210313671,
   3336571891, 3584528711, 113926993, 338241895,
   666307205, 773529912, 1294757372, 1396182291,
   1695183700, 1986661051, 2177026350, 2456956037,
   2730485921, 2820302411, 3259730800, 3345764771,
   3516065817, 3600352804, 4094571909, 275423344,
   430227734, 506948616, 659060556, 883997877,
   958139571, 1322822218, 1537002063, 1747873779,
   1955562222, 2024104815, 2227730452, 2361852424,
   2428436474, 2756734187, 3204031479, 3329325298]

/-- The eight 32-bit words of SHA-256 working state. -/
structure Sha256State where
  a : Nat
  b : Nat
  c : Nat
  d : Nat
  e : Nat
  f : Nat
  g : Nat
  h : Nat
deriving Repr, DecidableEq

/-- SHA-256 initial hash value. -/
def shaH0 : Sha256State :=
  ⟨1779033703, 3144134277, 1013904242, 2773480762,
   1359893119, 2600822924, 528734635, 1541459225⟩

/-- One SHA-256 compression round, taking the current schedule word
and round constant. -/
def sha256Round (s : Sha256State) (kw : Nat × Nat) : Sha256State :=
  let k := kw.1
  let w := kw.2
  let s1 := (ror32 s.e 6) ^^^ (ror32 s.e 11) ^^^ (ror32 s.e 25)
  let ch := (s.e &&& s.f) ^^^ ((not32 s.e) &&& s.g)
  let temp1 := (s.h + s1 + ch + k + w) % 4294967296
  let s0 := (ror32 s.a 2) ^^^ (ror32 s.a 13) ^^^ (ror32 s.a 22)
  let maj := (s.a &&& s.b) ^^^ (s.a &&& s.c) ^^^ (s.b &&& s.c)
  let temp2 := (s0 + maj) % 4294967296
  ⟨(temp1 + temp2) % 4294967296, s.a, s.b, s.c,
   (s.d + temp1) % 4294967296, s.e, s.f, s.g⟩

/-- Pack bytes into big-endian 32-bit words (4 bytes per word). -/
def toWordsBE : List Nat → List Nat
  | b0 :: b1 :: b2 :: b3 :: rest =>
    (b0 * 16777216 + b1 * 65536 + b2 * 256 + b3) :: toWordsBE rest
  | _ => []

/-- Derive the next message-schedule word from the current schedule `ws`. -/
def nextWord (ws : List Nat) : Nat :=
  let n := ws.length
  let w15 := ws.getD (n - 15) 0
  let w2 := ws.getD (n - 2) 0
  let w16 := ws.getD (n - 16) 0
  let w7 := ws.getD (n - 7) 0
  let s0 := (ror32 w15 7) ^^^ (ror32 w15 18) ^^^ (w15 >>> 3)
  let s1 := (ror32 w2 17) ^^^ (ror32 w2 19) ^^^ (w2 >>> 10)
  (w16 + s0 + w7 + s1) % 4294967296

/-- Extend the 16-word schedule by `n` further words. -/
def extendWords (ws : List Nat) : Nat → List Nat
  | 0 => ws
  | n + 1 => extendWords (ws ++ [nextWord ws]) n

/-- Compress one 64-byte block into the state. -/
def compressBlock (s : Sha256State) (block : List Nat) : Sha256State :=
  let ws := extendWords (toWordsBE block) 48
  let s' := (shaK.zip ws).foldl sha256Round s
  ⟨(s.a + s'.a) % 4294967296, (s.b + s'.b) % 4294967296,
   (s.c + s'.c) % 4294967296, (s.d + s'.d) % 4294967296,
   (s.e + s'.e) % 4294967296, (s.f + s'.f) % 4294967296,
   (s.g + s'.g) % 4294967296, (s.h + s'.h) % 4294967296⟩

/-- Process a padded message 64 bytes at a time; `fuel` bounds the number of
remaining bytes so the recursion is structural (kernel-reducible). -/
def processBlocksAux (s : Sha256State) (l : List Nat) : Nat → Sha256State
  | 0 => s
  | fuel + 1 =>
    match l with
    | [] => s
    | _ :: _ => processBlocksAux (compressBlock s (l.take 64)) (l.drop 64) fuel

/-- Process a padded message 64 bytes at a time. -/
def processBlocks (s : Sha256State) (l : List Nat) : Sha256State :=
  processBlocksAux s l l.length

/-- Big-endian 8-byte encoding. -/
def beBytes8 (n : Nat) : List Nat :=
  [(n >>> 56) % 256, (n >>> 48) % 256, (n >>> 40) % 256, (n >>> 32) % 256,
   (n >>> 24) % 256, (n >>> 16) % 256, (n >>> 8) % 256, n % 256]

/-- Big-endian 4-byte encoding. -/
def beBytes4 (n : Nat) : List Nat :=
  [(n >>> 24) % 256, (n >>> 16) % 256, (n >>> 8) % 256, n % 256]

/-- SHA-256 message padding: append `0x80`, zeros to 56 mod 64, then the
bit length as 8 big-endian bytes. -/
def sha256Pad (msg : List Nat) : List Nat :=
  let l := msg.length
  let zeros := (119 - l % 64) % 64
  msg ++ [0x80] ++ List.replicate zeros 0 ++ beBytes8 (8 * l)

/-- Full SHA-256 digest: 32 bytes. -/
def sha256 (msg : List Nat) : List Nat :=
  let s := processBlocks shaH0 (sha256Pad msg)
  beBytes4 s.a ++ beBytes4 s.b ++ beBytes4 s.c ++ beBytes4 s.d ++
  beBytes4 s.e ++ beBytes4 s.f ++ beBytes4 s.g ++ beBytes4 s.h

theorem sha256_length (msg : List Nat) : (sha256 msg).length = 32 := by
  simp [sha256, beBytes4]

theorem sha256_lt (msg : List Nat) : ∀ b ∈ sha256 msg, b < 256 := by
  intro b hb
  simp only [sha256, beBytes4, List.append_assoc, List.mem_append, List.mem_cons,
    List.not_mem_nil, or_false] at hb
  rcases hb with h | h | h | h | h | h | h | h <;>
    rcases h with h | h | h | h <;> subst h <;> omega

/-- Golden test vector: SHA-256 of the ASCII bytes of the string `abc`. -/
example : sha256 [97, 98, 99] =
    [186, 120, 22, 191, 143, 1, 207, 234,
     65, 65, 64, 222, 93, 174, 34, 35,
     176, 3, 97, 163, 150, 23, 122, 156,
     180, 16, 255, 97, 242, 0, 21, 173] := by decide

/-! ## UTF-8 encoding of strings (Python `str.encode()`) -/

/-- UTF-8 encoding of a single Unicode code point. -/
def utf8EncodeChar (c : Nat) : List Nat :=
  if c < 0x80 then [c]
  else if c < 0x800 then
    [0xC0 ||| (c >>> 6), 0x80 ||| (c &&& 0x3F)]
  else if c < 0x10000 then
    [0xE0 ||| (c >>> 12), 0x80 ||| ((c >>> 6) &&& 0x3F), 0x80 ||| (c &&& 0x3F)]
  else
    [0xF0 ||| (c >>> 18), 0x80 ||| ((c >>> 12) &&& 0x3F),
     0x80 ||| ((c >>> 6) &&& 0x3F), 0x80 ||| (c &&& 0x3F)]

/-- UTF-8 bytes of a string, as `str.encode()` produces. -/
def utf8Bytes (s : String) : List Nat :=
  s.data.flatMap (fun ch => utf8EncodeChar ch.toNat)

example : utf8Bytes "abc" = [0x61, 0x62, 0x63] := by decide

/-! ## Discriminator derivation

`_account_discriminator` in `coder/accounts.py` and `_event_discriminator`
in `coder/event.py`.
-/

def ACCOUNT_DISCRIMINATOR_SIZE : Nat := 8

/-- `sha256(f"account:{name}".encode()).digest()[:ACCOUNT_DISCRIMINATOR_SIZE]` -/
def account_discriminator (name : String) : List Nat :=
  (sha256 (utf8Bytes ("account:" ++ name))).take ACCOUNT_DISCRIMINATOR_SIZE

/-- `sha256(f"event:{name}".encode()).digest()[:8]` -/
def event_discriminator (name : String) : List Nat :=
  (sha256 (utf8Bytes ("event:" ++ name))).take 8

/-! ## The canonical IDL data model

Shallow embedding of the `anchorpy_core.idl` classes as consumed by the
coder modules.  A type kind the source's dispatch does not recognize is
modelled by `IdlType.other` (it reaches the trailing
`raise ValueError(f"Type ... not implemented yet")`).
-/

inductive IdlType where
  | bool
  | u8 | i8 | u16 | i16 | u32 | i32 | u64 | i64 | u128 | i128
  | f32 | f64
  | bytes
  | string
  | publicKey
  | vec (inner : IdlType)
  | option (inner : IdlType)
  | array (inner : IdlType) (size : Nat)
  | defined (name : String)
  | other (descr : String)
deriving Repr, DecidableEq

structure IdlField where
  name : String
  ty : IdlType
deriving Repr, DecidableEq

/-- One element of an enum variant's field list.  The source inspects the
first element at runtime: an `IdlField` (carries a name) selects the
named-fields path, a bare `IdlType` the tuple path. -/
abbrev VariantElem := Sum IdlField IdlType

/-- An enum variant: `fields` is `none` when the variant carries no field
list at all (unit variant). -/
structure EnumVariant where
  name : String
  fields : Option (List VariantElem)
deriving Repr, DecidableEq

/-- Body of a type definition: struct, enum, alias, or an unrecognized kind
(which the source reports as `Unknown type <kind>`). -/
inductive TypeDefTy where
  | struct (fields : List IdlField)
  | enum (variants : List EnumVariant)
  | alias (value : IdlType)
  | unknown (kind : String)
deriving Repr, DecidableEq

structure IdlTypeDefinition where
  name : String
  ty : TypeDefTy
deriving Repr, DecidableEq

/-! ## `pyheck.snake`

Model of the external `pyheck.snake` identifier conversion: lowercase,
with an underscore inserted at each lower-or-digit to upper transition.
(No claim depends on the exact word-splitting of multi-acronym names; on
names that are already lowercase it is the identity, as in the library.) -/

def snakeAux : List Char → Option Char → List Char
  | [], _ => []
  | c :: rest, prev =>
    let boundary :=
      match prev with
      | some p => c.isUpper && (p.isLower || p.isDigit)
      | none => false
    (if boundary then ['_', c.toLower] else [c.toLower]) ++ snakeAux rest (some c)

def snake (s : String) : String :=
  ⟨snakeAux s.data none⟩

example : snake "myFieldName" = "my_field_name" := by decide
example : snake "counter" = "counter" := by decide

/-! ## Binary layouts

`Ly` models the `borsh_construct` / `construct` layout objects the
derivation engine produces: fixed-width integers are parameterized by
their byte width (`U8` is `uint 1`, `U128` is `uint 16`, ...); floats are
carried as raw IEEE bit patterns of the given width. -/

inductive Ly where
  | bool
  | uint (width : Nat)
  | sint (width : Nat)
  | float (width : Nat)
  | bytes
  | string
  | pubkey
  | vec (inner : Ly)
  | option (inner : Ly)
  | array (inner : Ly) (size : Nat)
  | cstruct (fields : List (String × Ly))
  | tupleStruct (items : List Ly)
  | enum (name : String) (variants : List (String × Option Ly))
deriving Repr

/-- Runtime values flowing through encode/decode.  Python `str` values are
modelled by their UTF-8 code-unit sequence; floats by their IEEE bit
pattern. -/
inductive Val where
  | vbool (b : Bool)
  | vint (n : Int)
  | vfloat (bits : Nat)
  | vbytes (bs : List Nat)
  | vstr (bs : List Nat)
  | vpubkey (bs : List Nat)
  | vnone
  | vsome (v : Val)
  | vlist (vs : List Val)
  | vstruct (fields : List (String × Val))
  | venum (variant : String) (payload : Option Val)
deriving Repr

/-- Upper bound (exclusive) of an unsigned `w`-byte integer. -/
def uintMax (w : Nat) : Int := (2 : Int) ^ (8 * w)

/-- Half range of a signed `w`-byte integer. -/
def sintHalf (w : Nat) : Int := uintMax w / 2

/-- Find an enum variant by name, returning its declaration index and
payload layout. -/
def findVariant (variants : List (String × Option Ly)) (vn : String) :
    Option (Nat × Option Ly) :=
  match variants with
  | [] => none
  | (n, p) :: rest =>
    if n = vn then some (0, p)
    else (findVariant rest vn).map (fun r => (r.1 + 1, r.2))

/-! ## Validity of a value for a layout

`validFor fuel ly v` captures exactly the values the `construct` layout can
build: integer ranges, 32-bit length bounds for length-prefixed containers,
matching field names for structs, a declared variant (with index below 256,
the borsh `U8` tag) for enums.  All functions are structural on `fuel`
(one unit per recursive call) so they reduce inside the kernel. -/

mutual

def validFor : Nat → Ly → Val → Bool
  | 0, _, _ => false
  | _ + 1, .bool, .vbool _ => true
  | _ + 1, .uint w, .vint n => decide (0 ≤ n) && decide (n < uintMax w)
  | _ + 1, .sint w, .vint n => decide (-sintHalf w ≤ n) && decide (n < sintHalf w)
  | _ + 1, .float w, .vfloat bits => decide (bits < 2 ^ (8 * w))
  | _ + 1, .bytes, .vbytes bs =>
    decide (bs.length < 4294967296) && bs.all (· < 256)
  | _ + 1, .string, .vstr bs =>
    decide (bs.length < 4294967296) && bs.all (· < 256)
  | _ + 1, .pubkey, .vpubkey bs =>
    decide (bs.length = 32) && bs.all (· < 256)
  | f + 1, .vec inner, .vlist vs =>
    decide (vs.length < 4294967296) && validList f inner vs
  | _ + 1, .option _, .vnone => true
  | f + 1, .option inner, .vsome v => validFor f inner v
  | f + 1, .array inner n, .vlist vs =>
    decide (vs.length = n) && validList f inner vs
  | f + 1, .cstruct flds, .vstruct pairs => validFields f flds pairs
  | f + 1, .tupleStruct lys, .vlist vs => validItems f lys vs
  | _ + 1, .enum _ variants, .venum vn none =>
    match findVariant variants vn with
    | some (idx, none) => decide (idx < 256)
    | _ => false
  | f + 1, .enum _ variants, .venum vn (some pv) =>
    match findVariant variants vn with
    | some (idx, some ply) => decide (idx < 256) && validFor f ply pv
    | _ => false
  | _, _, _ => false

def validList : Nat → Ly → List Val → Bool
  | 0, _, _ => false
  | _ + 1, _, [] => true
  | f + 1, inner, v :: vs => validFor f inner v && validList f inner vs

def validItems : Nat → List Ly → List Val → Bool
  | 0, _, _ => false
  | _ + 1, [], [] => true
  | f + 1, ly :: lys, v :: vs => validFor f ly v && validItems f lys vs
  | _, _, _ => false

def validFields : Nat → List (String × Ly) → List (String × Val) → Bool
  | 0, _, _ => false
  | _ + 1, [], [] => true
  | f + 1, (n, ly) :: flds, (n', v) :: pairs =>
    decide (n = n') && validFor f ly v && validFields f flds pairs
  | _, _, _ => false

end

/-! ## Encoding (`construct`'s `build`) -/

mutual

def encodeLy : Nat → Ly → Val → Option (List Nat)
  | 0, _, _ => none
  | _ + 1, .bool, .vbool b => some [if b then 1 else 0]
  | _ + 1, .uint w, .vint n =>
    if 0 ≤ n ∧ n < uintMax w then some (leBytes w n.toNat) else none
  | _ + 1, .sint w, .vint n =>
    if -sintHalf w ≤ n ∧ n < sintHalf w then
      some (leBytes w (n % uintMax w).toNat)
    else none
  | _ + 1, .float w, .vfloat bits =>
    if bits < 2 ^ (8 * w) then some (leBytes w bits) else none
  | _ + 1, .bytes, .vbytes bs =>
    if bs.length < 4294967296 then some (leBytes 4 bs.length ++ bs) else none
  | _ + 1, .string, .vstr bs =>
    if bs.length < 4294967296 then some (leBytes 4 bs.length ++ bs) else none
  | _ + 1, .pubkey, .vpubkey bs =>
    if bs.length = 32 then some bs else none
  | f + 1, .vec inner, .vlist vs =>
    if vs.length < 4294967296 then
      (encodeList f inner vs).map (fun body => leBytes 4 vs.length ++ body)
    else none
  | _ + 1, .option _, .vnone => some [0]
  | f + 1, .option inner, .vsome v => (encodeLy f inner v).map (fun b => 1 :: b)
  | f + 1, .array inner n, .vlist vs =>
    if vs.length = n then encodeList f inner vs else none
  | f + 1, .cstruct flds, .vstruct pairs => encodeFields f flds pairs
  | f + 1, .tupleStruct lys, .vlist vs => encodeItems f lys vs
  | _ + 1, .enum _ variants, .venum vn none =>
    match findVariant variants vn with
    | some (idx, none) => if idx < 256 then some [idx] else none
    | _ => none
  | f + 1, .enum _ variants, .venum vn (some pv) =>
    match findVariant variants vn with
    | some (idx, some ply) =>
      if idx < 256 then (encodeLy f ply pv).map (fun b => idx :: b) else none
    | _ => none
  | _, _, _ => none

def encodeList : Nat → Ly → List Val → Option (List Nat)
  | 0, _, _ => none
  | _ + 1, _, [] => some []
  | f + 1, inner, v :: vs => do
    let b ← encodeLy f inner v
    let bsr ← encodeList f inner vs
    return b ++ bsr

def encodeItems : Nat → List Ly → List Val → Option (List Nat)
  | 0, _, _ => none
  | _ + 1, [], [] => some []
  | f + 1, ly :: lys, v :: vs => do
    let b ← encodeLy f ly v
    let bsr ← encodeItems f lys vs
    return b ++ bsr
  | _, _, _ => none

def encodeFields : Nat → List (String × Ly) → List (String × Val) → Option (List Nat)
  | 0, _, _ => none
  | _ + 1, [], [] => some []
  | f + 1, (n, ly) :: flds, (n', v) :: pairs =>
    if n = n' then do
      let b ← encodeLy f ly v
      let bsr ← encodeFields f flds pairs
      return b ++ bsr
    else none
  | _, _, _ => none

end

/-! ## Decoding (`construct`'s `parse`) -/

mutual

def decodeLy : Nat → Ly → List Nat → Option (Val × List Nat)
  | 0, _, _ => none
  | _ + 1, .bool, b :: bs => some (.vbool (b != 0), bs)
  | _ + 1, .uint w, bs =>
    if w ≤ bs.length then some (.vint (natFromLE (bs.take w) : Nat), bs.drop w)
    else none
  | _ + 1, .sint w, bs =>
    if w ≤ bs.length then
      let u : Int := natFromLE (bs.take w)
      some (.vint (if u < sintHalf w then u else u - uintMax w), bs.drop w)
    else none
  | _ + 1, .float w, bs =>
    if w ≤ bs.length then some (.vfloat (natFromLE (bs.take w)), bs.drop w)
    else none
  | _ + 1, .bytes, bs =>
    if 4 ≤ bs.length then
      let n := natFromLE (bs.take 4)
      let rest := bs.drop 4
      if n ≤ rest.length then some (.vbytes (rest.take n), rest.drop n) else none
    else none
  | _ + 1, .string, bs =>
    if 4 ≤ bs.length then
      let n := natFromLE (bs.take 4)
      let rest := bs.drop 4
      if n ≤ rest.length then some (.vstr (rest.take n), rest.drop n) else none
    else none
  | _ + 1, .pubkey, bs =>
    if 32 ≤ bs.length then some (.vpubkey (bs.take 32), bs.drop 32) else none
  | f + 1, .vec inner, bs =>
    if 4 ≤ bs.length then
      (decodeCount f inner (natFromLE (bs.take 4)) (bs.drop 4)).map
        (fun r => (.vlist r.1, r.2))
    else none
  | f + 1, .option inner, b :: bs =>
    if b = 0 then some (.vnone, bs)
    else if b = 1 then (decodeLy f inner bs).map (fun r => (.vsome r.1, r.2))
    else none
  | f + 1, .array inner n, bs =>
    (decodeCount f inner n bs).map (fun r => (.vlist r.1, r.2))
  | f + 1, .cstruct flds, bs =>
    (decodeFields f flds bs).map (fun r => (.vstruct r.1, r.2))
  | f + 1, .tupleStruct lys, bs =>
    (decodeItems f lys bs).map (fun r => (.vlist r.1, r.2))
  | f + 1, .enum _ variants, b :: bs =>
    match variants[b]? with
    | some (vn, none) => some (.venum vn none, bs)
    | some (vn, some ply) =>
      (decodeLy f ply bs).map (fun r => (.venum vn (some r.1), r.2))
    | none => none
  | _, _, _ => none

def decodeCount : Nat → Ly → Nat → List Nat → Option (List Val × List Nat)
  | 0, _, _, _ => none
  | _ + 1, _, 0, bs => some ([], bs)
  | f + 1, inner, n + 1, bs => do
    let (v, bs') ← decodeLy f inner bs
    let (vs, bs'') ← decodeCount f inner n bs'
    return (v :: vs, bs'')

def decodeItems : Nat → List Ly → List Nat → Option (List Val × List Nat)
  | 0, _, _ => none
  | _ + 1, [], bs => some ([], bs)
  | f + 1, ly :: lys, bs => do
    let (v, bs') ← decodeLy f ly bs
    let (vs, bs'') ← decodeItems f lys bs'
    return (v :: vs, bs'')

def decodeFields : Nat → List (String × Ly) → List Nat →
    Option (List (String × Val) × List Nat)
  | 0, _, _ => none
  | _ + 1, [], bs => some ([], bs)
  | f + 1, (n, ly) :: flds, bs => do
    let (v, bs') ← decodeLy f ly bs
    let (pairs, bs'') ← decodeFields f flds bs'
    return ((n, v) :: pairs, bs'')

end

/-! ## Round-trip helper lemmas -/

theorem take_app_len {α : Type} (l l' : List α) {w : Nat} (h : l.length = w) :
    (l ++ l').take w = l := by
  subst h
  induction l with
  | nil => rfl
  | cons x xs ih => simp [ih]

theorem drop_app_len {α : Type} (l l' : List α) {w : Nat} (h : l.length = w) :
    (l ++ l').drop w = l' := by
  subst h
  induction l with
  | nil => rfl
  | cons x xs ih => simp [ih]

theorem pow256 (w : Nat) : (256 : Nat) ^ w = 2 ^ (8 * w) := by
  rw [pow_mul]
  norm_num

theorem natFromLE_leBytes2 (w v : Nat) (h : v < 2 ^ (8 * w)) :
    natFromLE (leBytes w v) = v := by
  apply natFromLE_leBytes
  rw [pow256]
  exact h

theorem uintMax_cast (w : Nat) : uintMax w = ((2 ^ (8 * w) : Nat) : Int) := by
  unfold uintMax
  push_cast
  ring

theorem uintMax_pos (w : Nat) : 0 < uintMax w := by
  unfold uintMax
  positivity

theorem two_sintHalf_le (w : Nat) : 2 * sintHalf w ≤ uintMax w := by
  unfold sintHalf
  have h := Int.ediv_add_emod (uintMax w) 2
  have h2 := Int.emod_nonneg (uintMax w) (by norm_num : (2:Int) ≠ 0)
  omega

theorem sintHalf_nonneg (w : Nat) : 0 ≤ sintHalf w := by
  unfold sintHalf
  have := uintMax_pos w
  omega

/-- Two's-complement round-trip: the signed reinterpretation of the stored
unsigned residue recovers the original value. -/
theorem sint_reinterpret (w : Nat) (n : Int)
    (h1 : -sintHalf w ≤ n) (h2 : n < sintHalf w) :
    (n % uintMax w).toNat < 2 ^ (8 * w) ∧
      ((if ((n % uintMax w).toNat : Int) < sintHalf w
        then ((n % uintMax w).toNat : Int)
        else ((n % uintMax w).toNat : Int) - uintMax w) = n) := by
  have hM := uintMax_pos w
  have hMc := uintMax_cast w
  have hh := two_sintHalf_le w
  have hh0 := sintHalf_nonneg w
  have hm0 : 0 ≤ n % uintMax w := Int.emod_nonneg n (by omega)
  have hm1 : n % uintMax w < uintMax w := Int.emod_lt_of_pos n hM
  rcases le_or_lt 0 n with hn | hn
  · have he : n % uintMax w = n := Int.emod_eq_of_lt hn (by omega)
    constructor
    · omega
    · rw [he]
      have hc : ((n.toNat : Int)) = n := Int.toNat_of_nonneg hn
      rw [hc, if_pos h2]
  · have he : n % uintMax w = n + uintMax w := by
      have : (n + uintMax w) % uintMax w = n % uintMax w := by
        conv_rhs => rw [show n = n + uintMax w - uintMax w by ring]
        rw [Int.sub_emod, Int.emod_self]
        simp [Int.emod_emod_of_dvd]
      rw [← this]
      exact Int.emod_eq_of_lt (by omega) (by omega)
    constructor
    · omega
    · rw [he]
      have hc : (((n + uintMax w).toNat : Int)) = n + uintMax w :=
        Int.toNat_of_nonneg (by omega)
      rw [hc]
      have hlt : ¬ (n + uintMax w < sintHalf w) := by omega
      rw [if_neg hlt]
      omega

/-- `findVariant` returns the entry at the index it reports. -/
theorem findVariant_get (variants : List (String × Option Ly)) (vn : String)
    (idx : Nat) (p : Option Ly) (h : findVariant variants vn = some (idx, p)) :
    variants[idx]? = some (vn, p) := by
  induction variants generalizing idx with
  | nil => simp [findVariant] at h
  | cons hd rest ih =>
    obtain ⟨n, q⟩ := hd
    by_cases hn : n = vn
    · simp [findVariant, hn] at h
      obtain ⟨h1, h2⟩ := h
      subst h1 h2 hn
      simp
    · simp [findVariant, hn, Option.map_eq_some'] at h
      obtain ⟨i', hfind, hi⟩ := h
      rw [← hi]
      simpa using ih i' hfind

theorem pow32_lit : (2 : Nat) ^ (8 * 4) = 4294967296 := by norm_num

/-- Master round-trip: a value valid for a layout encodes successfully, and
decoding the encoding (before any trailing bytes) returns the value and the
trailing bytes, for all four mutually defined codec families at equal fuel. -/
theorem rt_all : ∀ f : Nat,
    (∀ ly v, validFor f ly v = true →
      ∃ bs, encodeLy f ly v = some bs ∧
        ∀ rest, decodeLy f ly (bs ++ rest) = some (v, rest)) ∧
    (∀ inner vs, validList f inner vs = true →
      ∃ bs, encodeList f inner vs = some bs ∧
        ∀ rest, decodeCount f inner vs.length (bs ++ rest) = some (vs, rest)) ∧
    (∀ lys vs, validItems f lys vs = true →
      ∃ bs, encodeItems f lys vs = some bs ∧
        ∀ rest, decodeItems f lys (bs ++ rest) = some (vs, rest)) ∧
    (∀ flds pairs, validFields f flds pairs = true →
      ∃ bs, encodeFields f flds pairs = some bs ∧
        ∀ rest, decodeFields f flds (bs ++ rest) = some (pairs, rest)) := by
  intro f
  induction f with
  | zero =>
    refine ⟨?_, ?_, ?_, ?_⟩ <;> intro a b hv <;>
      simp [validFor, validList, validItems, validFields] at hv
  | succ f ih =>
    obtain ⟨ih1, ih2, ih3, ih4⟩ := ih
    refine ⟨?_, ?_, ?_, ?_⟩
    · intro ly v hv
      cases ly <;> cases v
      all_goals try (exfalso; revert hv; simp [validFor]; done)
      case bool.vbool b =>
        refine ⟨[if b then 1 else 0], by simp [encodeLy], fun rest => ?_⟩
        cases b <;> simp [decodeLy]
      case uint.vint w n =>
        simp only [validFor, Bool.and_eq_true, decide_eq_true_eq] at hv
        obtain ⟨h0, h1⟩ := hv
        have hb : n.toNat < 2 ^ (8 * w) := by
          have := uintMax_cast w
          omega
        refine ⟨leBytes w n.toNat, by simp [encodeLy, h0, h1], fun rest => ?_⟩
        have hlen : (leBytes w n.toNat).length = w := leBytes_length w n.toNat
        simp only [decodeLy]
        rw [if_pos (by simp [hlen])]
        rw [take_app_len _ _ hlen, drop_app_len _ _ hlen,
          natFromLE_leBytes2 _ _ hb, Int.toNat_of_nonneg h0]
      case sint.vint w n =>
        simp only [validFor, Bool.and_eq_true, decide_eq_true_eq] at hv
        obtain ⟨h0, h1⟩ := hv
        obtain ⟨hb, hre⟩ := sint_reinterpret w n h0 h1
        refine ⟨leBytes w (n % uintMax w).toNat,
          by simp [encodeLy, h0, h1], fun rest => ?_⟩
        have hlen : (leBytes w (n % uintMax w).toNat).length = w :=
          leBytes_length _ _
        simp only [decodeLy]
        rw [if_pos (by simp [hlen])]
        rw [take_app_len _ _ hlen, drop_app_len _ _ hlen,
          natFromLE_leBytes2 _ _ hb]
        rw [hre]
      case float.vfloat w bits =>
        simp only [validFor, decide_eq_true_eq] at hv
        refine ⟨leBytes w bits, by simp [encodeLy, hv], fun rest => ?_⟩
        have hlen : (leBytes w bits).length = w := leBytes_length _ _
        simp only [decodeLy]
        rw [if_pos (by simp [hlen])]
        rw [take_app_len _ _ hlen, drop_app_len _ _ hlen,
          natFromLE_leBytes2 _ _ hv]
      case bytes.vbytes bs0 =>
        simp only [validFor, Bool.and_eq_true, decide_eq_true_eq] at hv
        obtain ⟨hlen32, -⟩ := hv
        refine ⟨leBytes 4 bs0.length ++ bs0,
          by simp [encodeLy, hlen32], fun rest => ?_⟩
        have hlen : (leBytes 4 bs0.length).length = 4 := leBytes_length _ _
        have hb : bs0.length < 2 ^ (8 * 4) := by rw [pow32_lit]; exact hlen32
        simp only [decodeLy, List.append_assoc]
        rw [if_pos (by simp [hlen])]
        rw [take_app_len _ _ hlen, drop_app_len _ _ hlen,
          natFromLE_leBytes2 _ _ hb]
        rw [if_pos (by simp)]
        rw [take_app_len _ _ rfl, drop_app_len _ _ rfl]
      case string.vstr bs0 =>
        simp only [validFor, Bool.and_eq_true, decide_eq_true_eq] at hv
        obtain ⟨hlen32, -⟩ := hv
        refine ⟨leBytes 4 bs0.length ++ bs0,
          by simp [encodeLy, hlen32], fun rest => ?_⟩
        have hlen : (leBytes 4 bs0.length).length = 4 := leBytes_length _ _
        have hb : bs0.length < 2 ^ (8 * 4) := by rw [pow32_lit]; exact hlen32
        simp only [decodeLy, List.append_assoc]
        rw [if_pos (by simp [hlen])]
        rw [take_app_len _ _ hlen, drop_app_len _ _ hlen,
          natFromLE_leBytes2 _ _ hb]
        rw [if_pos (by simp)]
        rw [take_app_len _ _ rfl, drop_app_len _ _ rfl]
      case pubkey.vpubkey bs0 =>
        simp only [validFor, Bool.and_eq_true, decide_eq_true_eq] at hv
        obtain ⟨hlen, -⟩ := hv
        refine ⟨bs0, by simp [encodeLy, hlen], fun rest => ?_⟩
        simp only [decodeLy]
        rw [if_pos (by simp [hlen])]
        rw [take_app_len _ _ hlen, drop_app_len _ _ hlen]
      case vec.vlist inner vs =>
        simp only [validFor, Bool.and_eq_true, decide_eq_true_eq] at hv
        obtain ⟨hlen32, hl⟩ := hv
        obtain ⟨body, he, hd⟩ := ih2 inner vs hl
        refine ⟨leBytes 4 vs.length ++ body,
          by simp [encodeLy, hlen32, he], fun rest => ?_⟩
        have hlen : (leBytes 4 vs.length).length = 4 := leBytes_length _ _
        have hb : vs.length < 2 ^ (8 * 4) := by rw [pow32_lit]; exact hlen32
        simp only [decodeLy, List.append_assoc]
        rw [if_pos (by simp [hlen])]
        rw [take_app_len _ _ hlen, drop_app_len _ _ hlen,
          natFromLE_leBytes2 _ _ hb, hd rest]
        rfl
      case option.vnone inner =>
        exact ⟨[0], by simp [encodeLy], fun rest => by simp [decodeLy]⟩
      case option.vsome inner v =>
        simp only [validFor] at hv
        obtain ⟨b, he, hd⟩ := ih1 inner v hv
        refine ⟨1 :: b, by simp [encodeLy, he], fun rest => ?_⟩
        simp [decodeLy, hd rest]
      case array.vlist inner n vs =>
        simp only [validFor, Bool.and_eq_true, decide_eq_true_eq] at hv
        obtain ⟨hlen, hl⟩ := hv
        subst hlen
        obtain ⟨body, he, hd⟩ := ih2 inner vs hl
        refine ⟨body, by simp [encodeLy, he], fun rest => ?_⟩
        simp [decodeLy, hd rest]
      case cstruct.vstruct flds pairs =>
        simp only [validFor] at hv
        obtain ⟨body, he, hd⟩ := ih4 flds pairs hv
        exact ⟨body, by simp [encodeLy, he],
          fun rest => by simp [decodeLy, hd rest]⟩
      case tupleStruct.vlist lys vs =>
        simp only [validFor] at hv
        obtain ⟨body, he, hd⟩ := ih3 lys vs hv
        exact ⟨body, by simp [encodeLy, he],
          fun rest => by simp [decodeLy, hd rest]⟩
      case enum.venum nm variants vn payload =>
        cases payload with
        | none =>
          simp only [validFor] at hv
          cases hfv : findVariant variants vn with
          | none => rw [hfv] at hv; simp at hv
          | some r =>
            obtain ⟨idx, pl⟩ := r
            rw [hfv] at hv
            cases pl with
            | some ply => simp at hv
            | none =>
              simp only [decide_eq_true_eq] at hv
              have hg := findVariant_get variants vn idx none hfv
              refine ⟨[idx], by simp [encodeLy, hfv, hv], fun rest => ?_⟩
              simp [decodeLy, hg]
        | some pv =>
          simp only [validFor] at hv
          cases hfv : findVariant variants vn with
          | none => rw [hfv] at hv; simp at hv
          | some r =>
            obtain ⟨idx, pl⟩ := r
            rw [hfv] at hv
            cases pl with
            | none => simp at hv
            | some ply =>
              simp only [Bool.and_eq_true, decide_eq_true_eq] at hv
              obtain ⟨hidx, hvp⟩ := hv
              obtain ⟨b, he, hd⟩ := ih1 ply pv hvp
              have hg := findVariant_get variants vn idx (some ply) hfv
              refine ⟨idx :: b, by simp [encodeLy, hfv, hidx, he],
                fun rest => ?_⟩
              simp [decodeLy, hg, hd rest]
    · intro inner vs hv
      cases vs with
      | nil =>
        exact ⟨[], by simp [encodeList], fun rest => by simp [decodeCount]⟩
      | cons v vs =>
        simp only [validList, Bool.and_eq_true] at hv
        obtain ⟨b, he, hd⟩ := ih1 inner v hv.1
        obtain ⟨bsr, her, hdr⟩ := ih2 inner vs hv.2
        refine ⟨b ++ bsr, by simp [encodeList, he, her], fun rest => ?_⟩
        simp [decodeCount, List.append_assoc, hd (bsr ++ rest), hdr rest]
    · intro lys vs hv
      cases lys with
      | nil =>
        cases vs with
        | nil =>
          exact ⟨[], by simp [encodeItems], fun rest => by simp [decodeItems]⟩
        | cons v vs => simp [validItems] at hv
      | cons ly lys =>
        cases vs with
        | nil => simp [validItems] at hv
        | cons v vs =>
          simp only [validItems, Bool.and_eq_true] at hv
          obtain ⟨b, he, hd⟩ := ih1 ly v hv.1
          obtain ⟨bsr, her, hdr⟩ := ih3 lys vs hv.2
          refine ⟨b ++ bsr, by simp [encodeItems, he, her], fun rest => ?_⟩
          simp [decodeItems, List.append_assoc, hd (bsr ++ rest), hdr rest]
    · intro flds pairs hv
      cases flds with
      | nil =>
        cases pairs with
        | nil =>
          exact ⟨[], by simp [encodeFields], fun rest => by simp [decodeFields]⟩
        | cons p pairs => simp [validFields] at hv
      | cons fl flds =>
        obtain ⟨n, ly⟩ := fl
        cases pairs with
        | nil => simp [validFields] at hv
        | cons p pairs =>
          obtain ⟨n', v⟩ := p
          simp only [validFields, Bool.and_eq_true, decide_eq_true_eq] at hv
          obtain ⟨⟨hn, hv1⟩, hv2⟩ := hv
          subst hn
          obtain ⟨b, he, hd⟩ := ih1 ly v hv1
          obtain ⟨bsr, her, hdr⟩ := ih4 flds pairs hv2
          refine ⟨b ++ bsr, by simp [encodeFields, he, her], fun rest => ?_⟩
          simp [decodeFields, List.append_assoc, hd (bsr ++ rest), hdr rest]

/-! ## Layout derivation (`coder/idl.py`)

`FIELD_TYPE_MAP` and the `_type_layout` / `_field_layout` /
`_typedef_layout_without_field_name` / `_handle_enum_variants_no_cache`
family.  The `Defined` branch re-enters typedef layout derivation, which the
source performs by unbounded recursion; here a fuel parameter decrements at
every call, and exhaustion is the explicit error the source would manifest
as stack exhaustion. -/

def FIELD_TYPE_MAP : IdlType → Option Ly
  | .bool => some .bool
  | .u8 => some (.uint 1)
  | .i8 => some (.sint 1)
  | .u16 => some (.uint 2)
  | .i16 => some (.sint 2)
  | .u32 => some (.uint 4)
  | .i32 => some (.sint 4)
  | .f32 => some (.float 4)
  | .u64 => some (.uint 8)
  | .i64 => some (.sint 8)
  | .f64 => some (.float 8)
  | .u128 => some (.uint 16)
  | .i128 => some (.sint 16)
  | .bytes => some .bytes
  | .string => some .string
  | .publicKey => some .pubkey
  | _ => none

mutual

def type_layout : Nat → IdlType → List IdlTypeDefinition → Except String Ly
  | 0, _, _ => .error "recursion limit exceeded"
  | f + 1, .vec inner, types => (type_layout f inner types).map .vec
  | f + 1, .option inner, types => (type_layout f inner types).map .option
  | f + 1, .defined d, types =>
    if types.isEmpty then .error "User defined types not provided"
    else
      match types.filter (fun td => td.name == d) with
      | [td] => typedef_layout_without_field_name f td types
      | _ => .error ("Type not found " ++ d)
  | f + 1, .array inner n, types =>
    (type_layout f inner types).map (fun ly => .array ly n)
  | _ + 1, .other d, _ => .error ("Type " ++ d ++ " not implemented yet")
  | _ + 1, t, _ =>
    -- every remaining kind is an `IdlTypeSimple`, indexed in the fixed table
    match FIELD_TYPE_MAP t with
    | some ly => .ok ly
    | none => .error "Type not implemented yet"

def field_layout : Nat → IdlField → List IdlTypeDefinition →
    Except String (String × Ly)
  | 0, _, _ => .error "recursion limit exceeded"
  | f + 1, fld, types =>
    (type_layout f fld.ty types).map
      (fun ly => (if fld.name = "" then "" else snake fld.name, ly))

def field_layouts : Nat → List IdlField → List IdlTypeDefinition →
    Except String (List (String × Ly))
  | 0, _, _ => .error "recursion limit exceeded"
  | _ + 1, [], _ => .ok []
  | f + 1, fld :: rest, types =>
    match field_layout f fld types with
    | .error e => .error e
    | .ok p =>
      match field_layouts f rest types with
      | .error e => .error e
      | .ok ps => .ok (p :: ps)

def typedef_layout_without_field_name : Nat → IdlTypeDefinition →
    List IdlTypeDefinition → Except String Ly
  | 0, _, _ => .error "recursion limit exceeded"
  | f + 1, td, types =>
    match td.ty with
    | .struct fields => (field_layouts f fields types).map .cstruct
    | .enum variants => handle_enum_variants f variants types td.name
    | .alias value => type_layout f value types
    | .unknown kind => .error ("Unknown type " ++ kind)

def handle_enum_variants : Nat → List EnumVariant → List IdlTypeDefinition →
    String → Except String Ly
  | 0, _, _, _ => .error "recursion limit exceeded"
  | f + 1, variants, types, name => (variant_layouts f variants types).map (.enum name)

def variant_layouts : Nat → List EnumVariant → List IdlTypeDefinition →
    Except String (List (String × Option Ly))
  | 0, _, _ => .error "recursion limit exceeded"
  | _ + 1, [], _ => .ok []
  | f + 1, v :: rest, types =>
    match variant_layout f v types with
    | .error e => .error e
    | .ok p =>
      match variant_layouts f rest types with
      | .error e => .error e
      | .ok ps => .ok (p :: ps)

def variant_layout : Nat → EnumVariant → List IdlTypeDefinition →
    Except String (String × Option Ly)
  | 0, _, _ => .error "recursion limit exceeded"
  | f + 1, v, types =>
    match v.fields with
    | none => .ok (v.name, none)
    | some flds =>
      match flds with
      | Sum.inl _ :: _ =>
        -- non-empty field list whose first element carries a name
        (named_layouts f flds types).map
          (fun ps => (v.name, some (.cstruct ps)))
      | _ =>
        -- empty list, or bare types: tuple-struct path
        (tuple_layouts f flds types).map
          (fun ts => (v.name, some (.tupleStruct ts)))

def named_layouts : Nat → List VariantElem → List IdlTypeDefinition →
    Except String (List (String × Ly))
  | 0, _, _ => .error "recursion limit exceeded"
  | _ + 1, [], _ => .ok []
  | f + 1, Sum.inl fld :: rest, types =>
    match field_layout f fld types with
    | .error e => .error e
    | .ok p =>
      match named_layouts f rest types with
      | .error e => .error e
      | .ok ps => .ok (p :: ps)
  | _ + 1, Sum.inr _ :: _, _ =>
    -- `_field_layout` on a bare type object recognizes no field shape
    .error "Unknown field format"

def tuple_layouts : Nat → List VariantElem → List IdlTypeDefinition →
    Except String (List Ly)
  | 0, _, _ => .error "recursion limit exceeded"
  | _ + 1, [], _ => .ok []
  | f + 1, Sum.inr t :: rest, types =>
    match type_layout f t types with
    | .error e => .error e
    | .ok ly =>
      match tuple_layouts f rest types with
      | .error e => .error e
      | .ok ls => .ok (ly :: ls)
  | _ + 1, Sum.inl fld :: _, _ =>
    -- `_type_layout` on an `IdlField` object falls through every dispatch arm
    .error ("Type IdlField " ++ fld.name ++ " not implemented yet")

end

/-- `_typedef_layout`: attaches the field name to the derived layout (the
`construct` rename only labels the parse tree). -/
def typedef_layout (f : Nat) (td : IdlTypeDefinition)
    (types : List IdlTypeDefinition) (field_name : String) :
    Except String (String × Ly) :=
  (typedef_layout_without_field_name f td types).map (fun ly => (field_name, ly))

/-! ## Python dict model

Assignment replaces the value of an existing key in place and appends new
keys; lookup is by key. -/

def dictInsert {α β : Type} [DecidableEq α] (l : List (α × β)) (k : α) (v : β) :
    List (α × β) :=
  match l with
  | [] => [(k, v)]
  | (k', v') :: rest =>
    if k' = k then (k', v) :: rest else (k', v') :: dictInsert rest k v

def alookup {α β : Type} [DecidableEq α] (l : List (α × β)) (k : α) : Option β :=
  match l with
  | [] => none
  | (k', v') :: rest => if k' = k then some v' else alookup rest k

/-- `{v: k for k, v in d.items()}`: the reversed index, later entries
overwriting earlier ones on collision. -/
def reverseDict {α β : Type} [DecidableEq α] [DecidableEq β]
    (l : List (α × β)) : List (β × α) :=
  l.foldl (fun acc p => dictInsert acc p.2 p.1) []

/-- Python `bytes(seq)`: succeeds only when every element is in 0..255
(any length is accepted). -/
def bytesOf (l : List Nat) : Except String (List Nat) :=
  if l.all (· < 256) then .ok l else .error "bytes must be in range(0, 256)"

/-! ## Format adapter (`coder/idl_compat.py`) -/

/-- The observable fields of an account record in either dialect:
`discriminator` is `none` when the attribute is absent or `None`;
`typedef` holds the embedded type body (legacy dialect) or `none`
(spec dialect, deferring to the shared types list). -/
structure AccountRecord where
  name : String
  discriminator : Option (List Nat)
  typedef : Option IdlTypeDefinition

/-- `get_account_discriminator`: the truthiness test makes an empty
sequence report as absent. -/
def get_account_discriminator (acc : AccountRecord) : Option (List Nat) :=
  match acc.discriminator with
  | some l => if l.isEmpty then none else some l
  | none => none

/-- `get_account_type_definition`: the embedded body wins; otherwise scan
the shared types list by name. -/
def get_account_type_definition (acc : AccountRecord)
    (types : List IdlTypeDefinition) : Except String IdlTypeDefinition :=
  match acc.typedef with
  | some td => .ok td
  | none =>
    match types.find? (fun td => td.name == acc.name) with
    | some td => .ok td
    | none => .error ("Type definition not found for account: " ++ acc.name)

/-- The observable fields of an event record: `fields` is the embedded
field list (legacy dialect) or `none` (spec dialect). -/
structure EventRecord where
  name : String
  fields : Option (List IdlField)
  discriminator : Option (List Nat)

/-- `get_event_discriminator`. -/
def get_event_discriminator (ev : EventRecord) : Option (List Nat) :=
  match ev.discriminator with
  | some l => if l.isEmpty then none else some l
  | none => none

/-! ## `AccountsCoder` (`coder/accounts.py`) -/

structure AccountsCoder where
  accounts_layout : List (String × Ly)
  acc_name_to_discriminator : List (String × List Nat)
  discriminator_to_acc_name : List (List Nat × String)
  discriminator_to_typedef_layout : List (List Nat × Ly)

/-- First loop of `AccountsCoder.__init__`: build the name→layout dict. -/
def buildAccountsLayout (f : Nat) (accounts : List AccountRecord)
    (types : List IdlTypeDefinition) (acc : List (String × Ly)) :
    Except String (List (String × Ly)) :=
  match accounts with
  | [] => .ok acc
  | a :: rest =>
    match get_account_type_definition a types with
    | .error e => .error e
    | .ok td =>
      match typedef_layout_without_field_name f td types with
      | .error e => .error e
      | .ok ly => buildAccountsLayout f rest types (dictInsert acc a.name ly)

/-- The discriminator one account record contributes: a supplied (non-empty)
discriminator converted through `bytes(...)`, else derived from the name. -/
def accountDisc (a : AccountRecord) : Except String (List Nat) :=
  match get_account_discriminator a with
  | some l => bytesOf l
  | none => .ok (account_discriminator a.name)

/-- Second loop of `AccountsCoder.__init__`: the name→discriminator dict. -/
def buildNameToDisc (accounts : List AccountRecord)
    (acc : List (String × List Nat)) :
    Except String (List (String × List Nat)) :=
  match accounts with
  | [] => .ok acc
  | a :: rest =>
    match accountDisc a with
    | .error e => .error e
    | .ok disc => buildNameToDisc rest (dictInsert acc a.name disc)

/-- `{disc: layouts[name] for name, disc in items}`: a missing layout key
would be a `KeyError` (unreachable for maps built from one account list). -/
def buildDiscToLayout (pairs : List (String × List Nat))
    (layouts : List (String × Ly)) (acc : List (List Nat × Ly)) :
    Except String (List (List Nat × Ly)) :=
  match pairs with
  | [] => .ok acc
  | (n, d) :: rest =>
    match alookup layouts n with
    | some ly => buildDiscToLayout rest layouts (dictInsert acc d ly)
    | none => .error ("KeyError: " ++ n)

/-- `AccountsCoder.__init__`. -/
def accountsCoderInit (f : Nat) (accounts : List AccountRecord)
    (types : List IdlTypeDefinition) : Except String AccountsCoder :=
  match buildAccountsLayout f accounts types [] with
  | .error e => .error e
  | .ok layouts =>
    match buildNameToDisc accounts [] with
    | .error e => .error e
    | .ok n2d =>
      match buildDiscToLayout n2d layouts [] with
      | .error e => .error e
      | .ok d2l => .ok ⟨layouts, n2d, reverseDict n2d, d2l⟩

/-- `AccountsCoder.decode` (via `parse` and the adapter `_decode`): reads the
8-byte discriminator, parses the payload with the layout the `Switch`
selects (a missing case parses nothing), then `_decode` raises `KeyError`
when the discriminator is not in the name index; the method returns the
parsed `.data`. -/
def AccountsCoder.decode (c : AccountsCoder) (f : Nat) (data : List Nat) :
    Except String Val :=
  if data.length < 8 then .error "stream read less than specified amount"
  else
    let disc := data.take 8
    let parsed : Except String (Option Val) :=
      match alookup c.discriminator_to_typedef_layout disc with
      | some ly =>
        match decodeLy f ly (data.drop 8) with
        | some (v, _) => .ok (some v)
        | none => .error "construct parse error"
      | none => .ok none
    match parsed with
    | .error e => .error e
    | .ok pv =>
      match alookup c.discriminator_to_acc_name disc with
      | some _ =>
        match pv with
        | some v => .ok v
        | none => .error "no payload parsed"
          -- unreachable for coders built by init: both indices share keys
      | none => .error "KeyError: unknown discriminator"

/-- `AccountsCoder` build path (`_encode` + `build`): discriminator from the
name index (`KeyError` when absent), payload built by the layout the
`Switch` selects for that discriminator (a missing case builds nothing). -/
def AccountsCoder.encode (c : AccountsCoder) (f : Nat) (name : String)
    (v : Val) : Except String (List Nat) :=
  match alookup c.acc_name_to_discriminator name with
  | none => .error ("KeyError: " ++ name)
  | some disc =>
    match alookup c.discriminator_to_typedef_layout disc with
    | some ly =>
      match encodeLy f ly v with
      | some body => .ok (disc ++ body)
      | none => .error "construct build error"
    | none => .ok disc

/-! ## `EventCoder` (`coder/event.py`) -/

/-- `_event_layout`: embedded fields (snake-cased) build a struct; without
fields the shared types list is scanned by name, and a miss silently
substitutes an empty struct. -/
def event_layout (f : Nat) (ev : EventRecord)
    (types : List IdlTypeDefinition) : Except String Ly :=
  match ev.fields with
  | none =>
    match types.find? (fun td => td.name == ev.name) with
    | some td => typedef_layout_without_field_name f td types
    | none =>
      typedef_layout_without_field_name f ⟨ev.name, .struct []⟩ types
  | some flds =>
    typedef_layout_without_field_name f
      ⟨ev.name, .struct (flds.map (fun fl => ⟨snake fl.name, fl.ty⟩))⟩ types

structure EventCoder where
  layouts : List (String × Ly)
  discriminators : List (List Nat × String)
  discriminator_to_layout : List (List Nat × Ly)

def buildEventLayouts (f : Nat) (events : List EventRecord)
    (types : List IdlTypeDefinition) (acc : List (String × Ly)) :
    Except String (List (String × Ly)) :=
  match events with
  | [] => .ok acc
  | ev :: rest =>
    match event_layout f ev types with
    | .error e => .error e
    | .ok ly => buildEventLayouts f rest types (dictInsert acc ev.name ly)

/-- The discriminator one event record contributes: a supplied (non-empty)
discriminator converted through `bytes(...)`, else derived from the name. -/
def eventDisc (ev : EventRecord) : Except String (List Nat) :=
  match get_event_discriminator ev with
  | some l => bytesOf l
  | none => .ok (event_discriminator ev.name)

/-- Second loop of `EventCoder.__init__`: the discriminator→name dict,
assigned keyed by discriminator (a collision overwrites). -/
def buildEventDiscs (events : List EventRecord)
    (acc : List (List Nat × String)) :
    Except String (List (List Nat × String)) :=
  match events with
  | [] => .ok acc
  | ev :: rest =>
    match eventDisc ev with
    | .error e => .error e
    | .ok disc => buildEventDiscs rest (dictInsert acc disc ev.name)

def buildEventDiscToLayout (discs : List (List Nat × String))
    (layouts : List (String × Ly)) (acc : List (List Nat × Ly)) :
    Except String (List (List Nat × Ly)) :=
  match discs with
  | [] => .ok acc
  | (d, n) :: rest =>
    match alookup layouts n with
    | some ly => buildEventDiscToLayout rest layouts (dictInsert acc d ly)
    | none => .error ("KeyError: " ++ n)

/-- `EventCoder.__init__`. -/
def eventCoderInit (f : Nat) (events : List EventRecord)
    (types : List IdlTypeDefinition) : Except String EventCoder :=
  match buildEventLayouts f events types [] with
  | .error e => .error e
  | .ok layouts =>
    match buildEventDiscs events [] with
    | .error e => .error e
    | .ok discs =>
      match buildEventDiscToLayout discs layouts [] with
      | .error e => .error e
      | .ok d2l => .ok ⟨layouts, discs, d2l⟩

/-- `EventCoder._decode` adapter step on the parsed pair: an unknown
discriminator is caught (`KeyError` → `None`), a known one wraps the
payload with the event name. -/
def EventCoder.adapterDecode (c : EventCoder) (disc : List Nat)
    (payload : Option Val) : Option (String × Option Val) :=
  match alookup c.discriminators disc with
  | some name => some (name, payload)
  | none => none

/-- Full event decode (`parse` + `_decode`): an unknown discriminator
yields an explicit `none` ("no event") rather than a failure. -/
def EventCoder.decode (c : EventCoder) (f : Nat) (data : List Nat) :
    Except String (Option (String × Option Val)) :=
  if data.length < 8 then .error "stream read less than specified amount"
  else
    let disc := data.take 8
    let parsed : Except String (Option Val) :=
      match alookup c.discriminator_to_layout disc with
      | some ly =>
        match decodeLy f ly (data.drop 8) with
        | some (v, _) => .ok (some v)
        | none => .error "construct parse error"
      | none => .ok none
    match parsed with
    | .error e => .error e
    | .ok pv => .ok (c.adapterDecode disc pv)

/-! ## Layout caches (`_enums_cache`,
`_idl_typedef_ty_struct_to_dataclass_type_cache`)

The module-level mutable caches are made explicit state.  Each Python
object construction (`Enum`, `make_dataclass`, `_DataclassStruct`)
allocates a fresh identity, modelled by a counter; a cache hit returns the
stored identity.  Cache keys are `(name, str(definition))` pairs; `str` is
modelled by a deterministic structural serializer. -/

def serializeType : IdlType → String
  | .bool => "bool"
  | .u8 => "u8"
  | .i8 => "i8"
  | .u16 => "u16"
  | .i16 => "i16"
  | .u32 => "u32"
  | .i32 => "i32"
  | .u64 => "u64"
  | .i64 => "i64"
  | .u128 => "u128"
  | .i128 => "i128"
  | .f32 => "f32"
  | .f64 => "f64"
  | .bytes => "bytes"
  | .string => "string"
  | .publicKey => "publicKey"
  | .vec inner => "vec(" ++ serializeType inner ++ ")"
  | .option inner => "option(" ++ serializeType inner ++ ")"
  | .array inner n => "array(" ++ serializeType inner ++ "," ++ toString n ++ ")"
  | .defined d => "defined(" ++ d ++ ")"
  | .other d => "other(" ++ d ++ ")"

def serializeField (fld : IdlField) : String :=
  "field(" ++ fld.name ++ ":" ++ serializeType fld.ty ++ ")"

def serializeFields (flds : List IdlField) : String :=
  String.intercalate "," (flds.map serializeField)

def serializeVariantElem : VariantElem → String
  | Sum.inl fld => serializeField fld
  | Sum.inr t => serializeType t

def serializeVariant (v : EnumVariant) : String :=
  "variant(" ++ v.name ++ ":" ++
    (match v.fields with
     | none => "-"
     | some es => String.intercalate "," (es.map serializeVariantElem)) ++ ")"

def serializeVariants (vs : List EnumVariant) : String :=
  String.intercalate ";" (vs.map serializeVariant)

structure CacheSt where
  enums_cache : List ((String × String) × Nat)
  struct_dc_cache : List ((String × String) × Nat)
  nextId : Nat
deriving Repr, DecidableEq

def initCache : CacheSt := ⟨[], [], 0⟩

def freshId (st : CacheSt) : Nat × CacheSt :=
  (st.nextId, { st with nextId := st.nextId + 1 })

/-- `_handle_enum_variants`: keyed by `(name, str(idl_enum))`; a hit returns
the stored `Enum` layout object, a miss constructs (allocates) and stores. -/
def handle_enum_variants_cached (name : String) (variants : List EnumVariant)
    (st : CacheSt) : Nat × CacheSt :=
  let key := (name, serializeVariants variants)
  match alookup st.enums_cache key with
  | some objId => (objId, st)
  | none =>
    let (objId, st') := freshId st
    (objId, { st' with enums_cache := dictInsert st'.enums_cache key objId })

/-- `_idl_typedef_ty_struct_to_dataclass_type`: keyed by
`(name, str(typedef_type))`; a hit returns the stored dataclass type
object. -/
def struct_to_datacls_cached (name : String) (fields : List IdlField)
    (st : CacheSt) : Nat × CacheSt :=
  let key := (name, serializeFields fields)
  match alookup st.struct_dc_cache key with
  | some objId => (objId, st)
  | none =>
    let (objId, st') := freshId st
    (objId, { st' with struct_dc_cache := dictInsert st'.struct_dc_cache key objId })

/-- Object identities produced by one call of
`_typedef_layout_without_field_name`: the identity of the returned layout
object, and (for structs) the identity of the dataclass shape it wraps.
The struct branch obtains the dataclass through the cache but wraps it in
a `_DataclassStruct` constructed fresh on every call; the enum branch
returns the cached `Enum` object itself. -/
def typedef_layout_objects (td : IdlTypeDefinition) (st : CacheSt) :
    (Nat × Option Nat) × CacheSt :=
  match td.ty with
  | .struct fields =>
    let (dcId, st') := struct_to_datacls_cached td.name fields st
    let (wrapperId, st'') := freshId st'
    ((wrapperId, some dcId), st'')
  | .enum variants =>
    let (enumId, st') := handle_enum_variants_cached td.name variants st
    ((enumId, none), st')
  | _ =>
    -- alias and unknown kinds construct no named-type cache entry
    let (objId, st') := freshId st
    ((objId, none), st')

theorem handle_enum_cached_nextId_mono (name : String)
    (variants : List EnumVariant) (st : CacheSt) :
    st.nextId ≤ (handle_enum_variants_cached name variants st).2.nextId := by
  unfold handle_enum_variants_cached freshId
  cases h : alookup st.enums_cache (name, serializeVariants variants) <;> simp [h]

theorem struct_dc_cached_nextId_mono (name : String) (fields : List IdlField)
    (st : CacheSt) :
    st.nextId ≤ (struct_to_datacls_cached name fields st).2.nextId := by
  unfold struct_to_datacls_cached freshId
  cases h : alookup st.struct_dc_cache (name, serializeFields fields) <;> simp [h]

/-! ## Dict lemmas -/

theorem alookup_dictInsert {α β : Type} [DecidableEq α]
    (l : List (α × β)) (k k' : α) (v : β) :
    alookup (dictInsert l k v) k' = if k = k' then some v else alookup l k' := by
  induction l with
  | nil => by_cases h : k = k' <;> simp [dictInsert, alookup, h]
  | cons p rest ih =>
    obtain ⟨k0, v0⟩ := p
    by_cases h0 : k0 = k
    · subst h0
      by_cases h1 : k0 = k' <;> simp [dictInsert, alookup, h1]
    · by_cases h1 : k0 = k'
      · have hkk : ¬ k = k' := fun he => h0 (h1.trans he.symm)
        have h0' : ¬ k' = k := fun he => hkk he.symm
        simp [dictInsert, alookup, h0, h1, hkk, h0']
      · simp [dictInsert, alookup, h0, h1, ih]

/-- The value the final dict holds for a key is the value of the key's
last assignment. -/
def lastName {α β : Type} [DecidableEq β] (pairs : List (α × β)) (d : β) :
    Option α :=
  match pairs with
  | [] => none
  | (n, d') :: rest =>
    match lastName rest d with
    | some n' => some n'
    | none => if d' = d then some n else none

theorem alookup_foldl_insert {α β : Type} [DecidableEq α] [DecidableEq β]
    (pairs : List (α × β)) (init : List (β × α)) (d : β) :
    alookup (pairs.foldl (fun acc p => dictInsert acc p.2 p.1) init) d =
      match lastName pairs d with
      | some n => some n
      | none => alookup init d := by
  induction pairs generalizing init with
  | nil => simp [lastName]
  | cons p rest ih =>
    obtain ⟨n, d'⟩ := p
    simp only [List.foldl_cons, ih (dictInsert init d' n), lastName]
    cases lastName rest d with
    | some n' => simp
    | none =>
      simp only [alookup_dictInsert]
      by_cases h : d' = d <;> simp [h]

theorem alookup_reverseDict {α β : Type} [DecidableEq α] [DecidableEq β]
    (l : List (α × β)) (d : β) :
    alookup (reverseDict l) d =
      match lastName l d with
      | some n => some n
      | none => none := by
  unfold reverseDict
  rw [alookup_foldl_insert]
  cases lastName l d <;> simp [alookup]

/-! # Claim theorems -/

/-- **C1.** For every entity name, the derived discriminator equals the
first 8 bytes of the SHA-256 digest of the UTF-8 bytes of the namespaced
string (`account:<name>` resp. `event:<name>`); the result always has
exactly 8 bytes, and derivation is deterministic: the same name yields the
same 8 bytes. -/
theorem C1_discriminator_derivation (name n1 n2 : String) :
    account_discriminator name =
      (sha256 (utf8Bytes ("account:" ++ name))).take 8 ∧
    event_discriminator name =
      (sha256 (utf8Bytes ("event:" ++ name))).take 8 ∧
    (account_discriminator name).length = 8 ∧
    (event_discriminator name).length = 8 ∧
    (n1 = n2 →
      account_discriminator n1 = account_discriminator n2 ∧
      event_discriminator n1 = event_discriminator n2) := by
  refine ⟨rfl, rfl, ?_, ?_, ?_⟩
  · simp [account_discriminator, ACCOUNT_DISCRIMINATOR_SIZE,
      List.length_take, sha256_length]
  · simp [event_discriminator, List.length_take, sha256_length]
  · rintro rfl
    exact ⟨rfl, rfl⟩

/-- Witness for C1 at the golden vector `MyAccount` (the digest bytes agree
with an independent SHA-256 computation of `account:MyAccount`). -/
theorem C1_discriminator_derivation_witness :
    (account_discriminator "MyAccount" =
      (sha256 (utf8Bytes ("account:" ++ "MyAccount"))).take 8 ∧
     account_discriminator "MyAccount" = account_discriminator "MyAccount" ∧
     event_discriminator "MyAccount" = event_discriminator "MyAccount") ∧
    account_discriminator "MyAccount" = [246, 28, 6, 87, 251, 45, 50, 42] ∧
    event_discriminator "MyEvent" = [96, 184, 197, 243, 139, 2, 90, 148] :=
  ⟨⟨(C1_discriminator_derivation "MyAccount" "MyAccount" "MyAccount").1,
    (C1_discriminator_derivation "MyAccount" "MyAccount" "MyAccount").2.2.2.2 rfl⟩,
   by decide, by decide⟩

/-- Inversion of `AccountsCoder.__init__`: the reverse discriminator index
is the reversed-dict comprehension of the name index. -/
theorem accountsCoderInit_inv (f : Nat) (accounts : List AccountRecord)
    (types : List IdlTypeDefinition) (c : AccountsCoder)
    (h : accountsCoderInit f accounts types = .ok c) :
    c.discriminator_to_acc_name = reverseDict c.acc_name_to_discriminator := by
  unfold accountsCoderInit at h
  cases h1 : buildAccountsLayout f accounts types [] with
  | error e => rw [h1] at h; simp at h
  | ok layouts =>
    rw [h1] at h
    dsimp only at h
    cases h2 : buildNameToDisc accounts [] with
    | error e => rw [h2] at h; simp at h
    | ok n2d =>
      rw [h2] at h
      dsimp only at h
      cases h3 : buildDiscToLayout n2d layouts [] with
      | error e => rw [h3] at h; simp at h
      | ok d2l =>
        rw [h3] at h
        dsimp only at h
        cases h
        rfl

/-- Inversion of `EventCoder.__init__`: the discriminator index is the
second construction loop's result. -/
theorem eventCoderInit_inv (f : Nat) (events : List EventRecord)
    (types : List IdlTypeDefinition) (ec : EventCoder)
    (h : eventCoderInit f events types = .ok ec) :
    buildEventDiscs events [] = .ok ec.discriminators := by
  unfold eventCoderInit at h
  cases h1 : buildEventLayouts f events types [] with
  | error e => rw [h1] at h; simp at h
  | ok layouts =>
    rw [h1] at h
    dsimp only at h
    cases h2 : buildEventDiscs events [] with
    | error e => rw [h2] at h; simp at h
    | ok discs =>
      rw [h2] at h
      dsimp only at h
      cases h3 : buildEventDiscToLayout discs layouts [] with
      | error e => rw [h3] at h; simp at h
      | ok d2l =>
        rw [h3] at h
        dsimp only at h
        cases h
        rfl

/-- The name of the last event in the list whose (successfully computed)
discriminator equals `d`. -/
def evLastName (events : List EventRecord) (d : List Nat) : Option String :=
  match events with
  | [] => none
  | ev :: rest =>
    match evLastName rest d with
    | some n => some n
    | none =>
      match eventDisc ev with
      | .ok d' => if d' = d then some ev.name else none
      | .error _ => none

theorem buildEventDiscs_lookup (events : List EventRecord)
    (m : List (List Nat × String)) (d : List Nat) :
    ∀ acc, buildEventDiscs events acc = .ok m →
      alookup m d =
        match evLastName events d with
        | some n => some n
        | none => alookup acc d := by
  induction events with
  | nil =>
    intro acc h
    simp only [buildEventDiscs] at h
    cases h
    simp [evLastName]
  | cons ev rest ih =>
    intro acc h
    simp only [buildEventDiscs] at h
    cases hd : eventDisc ev with
    | error e => rw [hd] at h; simp at h
    | ok d' =>
      rw [hd] at h
      rw [ih (dictInsert acc d' ev.name) h]
      simp only [evLastName, hd]
      cases hl : evLastName rest d with
      | some n => simp
      | none =>
        simp only [alookup_dictInsert]
        by_cases hq : d' = d <;> simp [hq]

/-- **C2 counterexample.** Two distinct account names (and two distinct
event names) with the same supplied 8-byte discriminator: construction
succeeds — no duplicate-discriminator failure — and each reverse index
silently holds only the later colliding entry. -/
theorem C2_counterexample :
    accountsCoderInit 3
      [⟨"A", some [1, 2, 3, 4, 5, 6, 7, 8], some ⟨"A", .struct []⟩⟩,
       ⟨"B", some [1, 2, 3, 4, 5, 6, 7, 8], some ⟨"B", .struct []⟩⟩] [] =
      .ok ⟨[("A", .cstruct []), ("B", .cstruct [])],
           [("A", [1, 2, 3, 4, 5, 6, 7, 8]), ("B", [1, 2, 3, 4, 5, 6, 7, 8])],
           [([1, 2, 3, 4, 5, 6, 7, 8], "B")],
           [([1, 2, 3, 4, 5, 6, 7, 8], .cstruct [])]⟩ ∧
    eventCoderInit 3
      [⟨"E1", none, some [9, 9, 9, 9, 9, 9, 9, 9]⟩,
       ⟨"E2", none, some [9, 9, 9, 9, 9, 9, 9, 9]⟩] [] =
      .ok ⟨[("E1", .cstruct []), ("E2", .cstruct [])],
           [([9, 9, 9, 9, 9, 9, 9, 9], "E2")],
           [([9, 9, 9, 9, 9, 9, 9, 9], .cstruct [])]⟩ :=
  ⟨rfl, rfl⟩

/-- **C2 (amended).** Coder construction performs no duplicate-discriminator
check: whenever it succeeds, the discriminator→name index holds, for each
8-byte value, the name of the last record assigned to it — colliding
earlier entries are silently dropped (accounts via the reversed-dict
comprehension, events via direct keyed assignment). -/
theorem C2_no_duplicate_check (f : Nat) (accounts : List AccountRecord)
    (types : List IdlTypeDefinition) (c : AccountsCoder)
    (events : List EventRecord) (ec : EventCoder)
    (ha : accountsCoderInit f accounts types = .ok c)
    (he : eventCoderInit f events types = .ok ec) (d : List Nat) :
    alookup c.discriminator_to_acc_name d =
      (match lastName c.acc_name_to_discriminator d with
       | some n => some n
       | none => none) ∧
    alookup ec.discriminators d =
      (match evLastName events d with
       | some n => some n
       | none => none) := by
  constructor
  · rw [accountsCoderInit_inv f accounts types c ha, alookup_reverseDict]
    cases lastName c.acc_name_to_discriminator d <;> rfl
  · rw [buildEventDiscs_lookup events ec.discriminators d []
      (eventCoderInit_inv f events types ec he)]
    cases evLastName events d <;> simp [alookup]

/-- Witness for C2 (amended), at the colliding instance of the
counterexample: the later names win in both indices. -/
theorem C2_no_duplicate_check_witness :
    alookup
      (AccountsCoder.mk [("A", .cstruct []), ("B", .cstruct [])]
        [("A", [1, 2, 3, 4, 5, 6, 7, 8]), ("B", [1, 2, 3, 4, 5, 6, 7, 8])]
        [([1, 2, 3, 4, 5, 6, 7, 8], "B")]
        [([1, 2, 3, 4, 5, 6, 7, 8], .cstruct [])]).discriminator_to_acc_name
      [1, 2, 3, 4, 5, 6, 7, 8] = some "B" ∧
    alookup
      (EventCoder.mk [("E1", .cstruct []), ("E2", .cstruct [])]
        [([9, 9, 9, 9, 9, 9, 9, 9], "E2")]
        [([9, 9, 9, 9, 9, 9, 9, 9], .cstruct [])]).discriminators
      [9, 9, 9, 9, 9, 9, 9, 9] = some "E2" := by
  have h := C2_no_duplicate_check 3
    [⟨"A", some [1, 2, 3, 4, 5, 6, 7, 8], some ⟨"A", .struct []⟩⟩,
     ⟨"B", some [1, 2, 3, 4, 5, 6, 7, 8], some ⟨"B", .struct []⟩⟩] []
    (AccountsCoder.mk [("A", .cstruct []), ("B", .cstruct [])]
      [("A", [1, 2, 3, 4, 5, 6, 7, 8]), ("B", [1, 2, 3, 4, 5, 6, 7, 8])]
      [([1, 2, 3, 4, 5, 6, 7, 8], "B")]
      [([1, 2, 3, 4, 5, 6, 7, 8], .cstruct [])])
    [⟨"E1", none, some [9, 9, 9, 9, 9, 9, 9, 9]⟩,
     ⟨"E2", none, some [9, 9, 9, 9, 9, 9, 9, 9]⟩]
    (EventCoder.mk [("E1", .cstruct []), ("E2", .cstruct [])]
      [([9, 9, 9, 9, 9, 9, 9, 9], "E2")]
      [([9, 9, 9, 9, 9, 9, 9, 9], .cstruct [])])
    rfl rfl
  constructor
  · rw [(h [1, 2, 3, 4, 5, 6, 7, 8]).1]
    rfl
  · rw [(h [9, 9, 9, 9, 9, 9, 9, 9]).2]
    rfl

/-- **C3.** Decode strictness is asymmetric: for an 8-byte prefix absent
from the discriminator indices, account decode fails with a `KeyError`
while event decode returns an explicit `none` ("no event"). -/
theorem C3_strictness (ac : AccountsCoder) (ec : EventCoder) (f : Nat)
    (data : List Nat) (h8 : 8 ≤ data.length)
    (ha1 : alookup ac.discriminator_to_acc_name (data.take 8) = none)
    (ha2 : alookup ac.discriminator_to_typedef_layout (data.take 8) = none)
    (he1 : alookup ec.discriminators (data.take 8) = none)
    (he2 : alookup ec.discriminator_to_layout (data.take 8) = none) :
    AccountsCoder.decode ac f data = .error "KeyError: unknown discriminator" ∧
    EventCoder.decode ec f data = .ok none := by
  constructor
  · unfold AccountsCoder.decode
    rw [if_neg (by omega)]
    simp [ha1, ha2]
  · unfold EventCoder.decode
    rw [if_neg (by omega)]
    simp [he1, he2, EventCoder.adapterDecode]

/-- Witness for C3: concrete one-entry coders and the unknown prefix
`[9,9,9,9,9,9,9,9]`. -/
theorem C3_strictness_witness :
    AccountsCoder.decode
      ⟨[("Counter", .cstruct [])], [("Counter", [1, 2, 3, 4, 5, 6, 7, 8])],
       [([1, 2, 3, 4, 5, 6, 7, 8], "Counter")],
       [([1, 2, 3, 4, 5, 6, 7, 8], .cstruct [])]⟩ 10
      [9, 9, 9, 9, 9, 9, 9, 9] = .error "KeyError: unknown discriminator" ∧
    EventCoder.decode
      ⟨[("MyEvent", .cstruct [])], [([1, 2, 3, 4, 5, 6, 7, 8], "MyEvent")],
       [([1, 2, 3, 4, 5, 6, 7, 8], .cstruct [])]⟩ 10
      [9, 9, 9, 9, 9, 9, 9, 9] = .ok none :=
  C3_strictness _ _ 10 [9, 9, 9, 9, 9, 9, 9, 9] (by decide) rfl rfl rfl rfl

/-- **C4.** Round-trip through the account coder: for every name registered
in the coder whose discriminator has the 8-byte wire width and maps back
consistently in the indices, and every value valid for the registered
layout (primitives, structs, enums in all three variant shapes, and nested
combinations — the validity predicate covers the full layout grammar),
decoding the bytes produced by encoding yields the original value. -/
theorem C4_account_roundtrip (c : AccountsCoder) (name : String)
    (disc : List Nat) (ly : Ly) (v : Val) (f : Nat)
    (hn : alookup c.acc_name_to_discriminator name = some disc)
    (hl : alookup c.discriminator_to_typedef_layout disc = some ly)
    (hm : (alookup c.discriminator_to_acc_name disc).isSome = true)
    (hdl : disc.length = 8)
    (hv : validFor f ly v = true) :
    ∃ bs, AccountsCoder.encode c f name v = .ok bs ∧
      AccountsCoder.decode c f bs = .ok v := by
  obtain ⟨body, he, hd⟩ := (rt_all f).1 ly v hv
  refine ⟨disc ++ body, ?_, ?_⟩
  · simp [AccountsCoder.encode, hn, hl, he]
  · unfold AccountsCoder.decode
    rw [if_neg (by rw [List.length_append, hdl]; omega)]
    have htake : (disc ++ body).take 8 = disc := take_app_len _ _ hdl
    have hdrop : (disc ++ body).drop 8 = body := drop_app_len _ _ hdl
    have hd' : decodeLy f ly body = some (v, []) := by simpa using hd []
    obtain ⟨nm, hnm⟩ := Option.isSome_iff_exists.mp hm
    simp [htake, hdrop, hl, hd', hnm]

/-- Witness for C4: a coder whose single account layout nests a struct, a
three-shape enum (unit, tuple, named), a vector and an option; the
round-trip is evaluated concretely. -/
theorem C4_account_roundtrip_witness :
    ∃ bs,
      AccountsCoder.encode
        ⟨[("Counter",
           .cstruct [("count", .uint 8),
                     ("status", .enum "Status"
                       [("Empty", none),
                        ("Pair", some (.tupleStruct [.uint 1, .sint 2])),
                        ("Named", some (.cstruct [("x", .uint 1)]))]),
                     ("tags", .vec (.uint 1)),
                     ("maybe", .option (.sint 2))])],
         [("Counter", [1, 2, 3, 4, 5, 6, 7, 8])],
         [([1, 2, 3, 4, 5, 6, 7, 8], "Counter")],
         [([1, 2, 3, 4, 5, 6, 7, 8],
           .cstruct [("count", .uint 8),
                     ("status", .enum "Status"
                       [("Empty", none),
                        ("Pair", some (.tupleStruct [.uint 1, .sint 2])),
                        ("Named", some (.cstruct [("x", .uint 1)]))]),
                     ("tags", .vec (.uint 1)),
                     ("maybe", .option (.sint 2))])]⟩ 20 "Counter"
        (.vstruct [("count", .vint 5),
                   ("status", .venum "Named" (some (.vstruct [("x", .vint 3)]))),
                   ("tags", .vlist [.vint 1, .vint 2]),
                   ("maybe", .vsome (.vint (-5)))]) = .ok bs ∧
      AccountsCoder.decode
        ⟨[("Counter",
           .cstruct [("count", .uint 8),
                     ("status", .enum "Status"
                       [("Empty", none),
                        ("Pair", some (.tupleStruct [.uint 1, .sint 2])),
                        ("Named", some (.cstruct [("x", .uint 1)]))]),
                     ("tags", .vec (.uint 1)),
                     ("maybe", .option (.sint 2))])],
         [("Counter", [1, 2, 3, 4, 5, 6, 7, 8])],
         [([1, 2, 3, 4, 5, 6, 7, 8], "Counter")],
         [([1, 2, 3, 4, 5, 6, 7, 8],
           .cstruct [("count", .uint 8),
                     ("status", .enum "Status"
                       [("Empty", none),
                        ("Pair", some (.tupleStruct [.uint 1, .sint 2])),
                        ("Named", some (.cstruct [("x", .uint 1)]))]),
                     ("tags", .vec (.uint 1)),
                     ("maybe", .option (.sint 2))])]⟩ 20 bs =
      .ok (.vstruct [("count", .vint 5),
                     ("status", .venum "Named" (some (.vstruct [("x", .vint 3)]))),
                     ("tags", .vlist [.vint 1, .vint 2]),
                     ("maybe", .vsome (.vint (-5)))]) :=
  C4_account_roundtrip _ "Counter" [1, 2, 3, 4, 5, 6, 7, 8] _ _ 20
    rfl rfl rfl (by decide) (by decide)

/-- **C9 counterexample.** Resolving the same struct type definition twice
does not return one shared layout instance: the two calls yield DISTINCT
layout (wrapper) objects; only the inner dataclass shape object is
shared. -/
theorem C9_counterexample :
    (typedef_layout_objects ⟨"Foo", .struct [⟨"x", .u8⟩]⟩ initCache).1.1 ≠
      (typedef_layout_objects ⟨"Foo", .struct [⟨"x", .u8⟩]⟩
        (typedef_layout_objects ⟨"Foo", .struct [⟨"x", .u8⟩]⟩ initCache).2).1.1 ∧
    (typedef_layout_objects ⟨"Foo", .struct [⟨"x", .u8⟩]⟩ initCache).1.2 =
      (typedef_layout_objects ⟨"Foo", .struct [⟨"x", .u8⟩]⟩
        (typedef_layout_objects ⟨"Foo", .struct [⟨"x", .u8⟩]⟩ initCache).2).1.2 ∧
    (typedef_layout_objects ⟨"Foo", .struct [⟨"x", .u8⟩]⟩ initCache).1.2 =
      some 0 := by
  decide

/-- **C9 (amended).** The caches are keyed by the pair (defining name,
deterministic serialization of the definition).  Repeated resolution of the
same enum returns the one shared `Enum` layout object with the cache state
unchanged; repeated resolution of the same struct returns the one shared
dataclass shape object, but the outer layout wrapper is rebuilt fresh on
every call; two differently named types of identical structure never share
a cached object. -/
theorem C9_cache_behavior (nm n2 : String) (variants : List EnumVariant)
    (fields flds1 : List IdlField) (st : CacheSt) :
    ((handle_enum_variants_cached nm variants
        (handle_enum_variants_cached nm variants st).2).1 =
      (handle_enum_variants_cached nm variants st).1 ∧
     (handle_enum_variants_cached nm variants
        (handle_enum_variants_cached nm variants st).2).2 =
      (handle_enum_variants_cached nm variants st).2) ∧
    ((struct_to_datacls_cached nm fields
        (struct_to_datacls_cached nm fields st).2).1 =
      (struct_to_datacls_cached nm fields st).1) ∧
    ((typedef_layout_objects ⟨nm, .struct flds1⟩ st).1.1 ≠
      (typedef_layout_objects ⟨nm, .struct flds1⟩
        (typedef_layout_objects ⟨nm, .struct flds1⟩ st).2).1.1) ∧
    (n2 ≠ nm →
      (handle_enum_variants_cached nm variants initCache).1 ≠
        (handle_enum_variants_cached n2 variants
          (handle_enum_variants_cached nm variants initCache).2).1) ∧
    (n2 ≠ nm →
      (struct_to_datacls_cached nm fields initCache).1 ≠
        (struct_to_datacls_cached n2 fields
          (struct_to_datacls_cached nm fields initCache).2).1) := by
  refine ⟨?_, ?_, ?_, ?_, ?_⟩
  · unfold handle_enum_variants_cached freshId
    cases h : alookup st.enums_cache (nm, serializeVariants variants) with
    | some objId => simp [h]
    | none => simp [h, alookup_dictInsert]
  · unfold struct_to_datacls_cached freshId
    cases h : alookup st.struct_dc_cache (nm, serializeFields fields) with
    | some objId => simp [h]
    | none => simp [h, alookup_dictInsert]
  · rcases hs1 : struct_to_datacls_cached nm flds1 st with ⟨dcId1, st1⟩
    rcases hs2 : struct_to_datacls_cached nm flds1
        { st1 with nextId := st1.nextId + 1 } with ⟨dcId2, st2⟩
    have hm2 := struct_dc_cached_nextId_mono nm flds1
      { st1 with nextId := st1.nextId + 1 }
    rw [hs2] at hm2
    simp only [typedef_layout_objects, hs1, freshId, hs2]
    simp at hm2 ⊢
    omega
  · intro hne
    have hk : ¬ ((nm, serializeVariants variants) =
        (n2, serializeVariants variants)) := by
      intro hc
      exact hne (congrArg Prod.fst hc).symm
    simp [handle_enum_variants_cached, initCache, alookup, dictInsert,
      freshId, hk]
  · intro hne
    have hk : ¬ ((nm, serializeFields fields) =
        (n2, serializeFields fields)) := by
      intro hc
      exact hne (congrArg Prod.fst hc).symm
    simp [struct_to_datacls_cached, initCache, alookup, dictInsert,
      freshId, hk]

/-- Witness for C9 (amended): the distinct-name clauses at concrete
names. -/
theorem C9_cache_behavior_witness :
    (handle_enum_variants_cached "Foo" [] initCache).1 ≠
      (handle_enum_variants_cached "Bar" []
        (handle_enum_variants_cached "Foo" [] initCache).2).1 ∧
    (struct_to_datacls_cached "Foo" [] initCache).1 ≠
      (struct_to_datacls_cached "Bar" []
        (struct_to_datacls_cached "Foo" [] initCache).2).1 :=
  ⟨(C9_cache_behavior "Foo" "Bar" [] [] [] initCache).2.2.2.1 (by decide),
   (C9_cache_behavior "Foo" "Bar" [] [] [] initCache).2.2.2.2 (by decide)⟩

/-- Per-variant layout shape: what `_handle_enum_variants_no_cache` builds
for each of the three payload shapes. -/
theorem variant_layout_spec (types : List IdlTypeDefinition) (f : Nat)
    (v : EnumVariant) (vl : String × Option Ly)
    (h : variant_layout f v types = .ok vl) :
    vl.1 = v.name ∧
    (v.fields = none → vl.2 = none) ∧
    (v.fields = some [] → vl.2 = some (.tupleStruct [])) ∧
    (∀ fld rest, v.fields = some (Sum.inl fld :: rest) →
      ∃ g ps, named_layouts g (Sum.inl fld :: rest) types = .ok ps ∧
        vl.2 = some (.cstruct ps)) ∧
    (∀ t rest, v.fields = some (Sum.inr t :: rest) →
      ∃ g ts, tuple_layouts g (Sum.inr t :: rest) types = .ok ts ∧
        vl.2 = some (.tupleStruct ts)) := by
  cases f with
  | zero => simp [variant_layout] at h
  | succ f =>
    cases hf : v.fields with
    | none =>
      simp only [variant_layout, hf, Except.ok.injEq] at h
      subst h
      refine ⟨rfl, fun _ => rfl, ?_, ?_, ?_⟩
      · intro hc; simp at hc
      · intro fld rest hc; simp at hc
      · intro t rest hc; simp at hc
    | some flds =>
      cases flds with
      | nil =>
        simp only [variant_layout, hf] at h
        cases f with
        | zero => simp [tuple_layouts, Except.map] at h
        | succ f2 =>
          simp only [tuple_layouts, Except.map, Except.ok.injEq] at h
          subst h
          refine ⟨rfl, ?_, fun _ => rfl, ?_, ?_⟩
          · intro hc; simp at hc
          · intro fld rest hc; simp at hc
          · intro t rest hc; simp at hc
      | cons el rest =>
        cases el with
        | inl fld =>
          simp only [variant_layout, hf] at h
          cases hn : named_layouts f (Sum.inl fld :: rest) types with
          | error e => rw [hn] at h; simp [Except.map] at h
          | ok ps =>
            rw [hn] at h
            simp only [Except.map, Except.ok.injEq] at h
            subst h
            refine ⟨rfl, ?_, ?_, ?_, ?_⟩
            · intro hc; simp at hc
            · intro hc; simp at hc
            · intro fld' rest' hc
              simp only [Option.some.injEq, List.cons.injEq, Sum.inl.injEq] at hc
              obtain ⟨h1, h2⟩ := hc
              subst h1
              subst h2
              exact ⟨f, ps, hn, rfl⟩
            · intro t rest' hc
              simp at hc
        | inr t =>
          simp only [variant_layout, hf] at h
          cases hn : tuple_layouts f (Sum.inr t :: rest) types with
          | error e => rw [hn] at h; simp [Except.map] at h
          | ok ts =>
            rw [hn] at h
            simp only [Except.map, Except.ok.injEq] at h
            subst h
            refine ⟨rfl, ?_, ?_, ?_, ?_⟩
            · intro hc; simp at hc
            · intro hc; simp at hc
            · intro fld' rest' hc
              simp at hc
            · intro t' rest' hc
              simp only [Option.some.injEq, List.cons.injEq, Sum.inr.injEq] at hc
              obtain ⟨h1, h2⟩ := hc
              subst h1
              subst h2
              exact ⟨f, ts, hn, rfl⟩

/-- The variant layout list is index-aligned with the variant list. -/
theorem variant_layouts_get (types : List IdlTypeDefinition) :
    ∀ (f : Nat) (variants : List EnumVariant)
      (vls : List (String × Option Ly)),
      variant_layouts f variants types = .ok vls →
      vls.length = variants.length ∧
      (∀ (i : Nat) (var : EnumVariant), variants[i]? = some var →
        ∃ (g : Nat) (vl : String × Option Ly),
          vls[i]? = some vl ∧ variant_layout g var types = .ok vl) := by
  intro f variants
  induction variants generalizing f with
  | nil =>
    intro vls h
    cases f with
    | zero => simp [variant_layouts] at h
    | succ f =>
      simp only [variant_layouts] at h
      cases h
      simp
  | cons v rest ih =>
    intro vls h
    cases f with
    | zero => simp [variant_layouts] at h
    | succ f =>
      simp only [variant_layouts] at h
      cases hv : variant_layout f v types with
      | error e => rw [hv] at h; simp at h
      | ok vl =>
        rw [hv] at h
        dsimp only at h
        cases hr : variant_layouts f rest types with
        | error e => rw [hr] at h; simp at h
        | ok vls' =>
          rw [hr] at h
          dsimp only at h
          cases h
          obtain ⟨hlen, hidx⟩ := ih f vls' hr
          refine ⟨by simp [hlen], ?_⟩
          intro i var hi
          cases i with
          | zero =>
            simp only [List.getElem?_cons_zero, Option.some.injEq] at hi
            subst hi
            exact ⟨f, vl, by simp, hv⟩
          | succ i =>
            simp only [List.getElem?_cons_succ] at hi
            obtain ⟨g, vl', h1, h2⟩ := hidx i var hi
            exact ⟨g, vl', by simpa using h1, h2⟩

/-- **C6.** Layout derivation follows the fixed table — each simple kind
maps to its fixed-width layout (whose encodings occupy exactly the
tabulated byte counts: Bool/U8/I8 one byte, U16/I16 two, U32/I32/F32 four,
U64/I64/F64 eight, U128/I128 sixteen, PublicKey 32 raw bytes), Bytes and
String are 4-byte-length-prefixed variable data, Vec(T) is a
length-prefixed sequence of T encodings, Option(T) a one-byte presence tag
conditionally followed by T, Array(T,N) exactly the N contiguous element
encodings, Defined(name) the resolved definition's layout — and a kind
outside the table fails with a "not implemented" error naming the type. -/
theorem C6_layout_table (f : Nat) (types : List IdlTypeDefinition) :
    (type_layout (f + 1) .bool types = .ok .bool ∧
     type_layout (f + 1) .u8 types = .ok (.uint 1) ∧
     type_layout (f + 1) .i8 types = .ok (.sint 1) ∧
     type_layout (f + 1) .u16 types = .ok (.uint 2) ∧
     type_layout (f + 1) .i16 types = .ok (.sint 2) ∧
     type_layout (f + 1) .u32 types = .ok (.uint 4) ∧
     type_layout (f + 1) .i32 types = .ok (.sint 4) ∧
     type_layout (f + 1) .f32 types = .ok (.float 4) ∧
     type_layout (f + 1) .u64 types = .ok (.uint 8) ∧
     type_layout (f + 1) .i64 types = .ok (.sint 8) ∧
     type_layout (f + 1) .f64 types = .ok (.float 8) ∧
     type_layout (f + 1) .u128 types = .ok (.uint 16) ∧
     type_layout (f + 1) .i128 types = .ok (.sint 16) ∧
     type_layout (f + 1) .bytes types = .ok .bytes ∧
     type_layout (f + 1) .string types = .ok .string ∧
     type_layout (f + 1) .publicKey types = .ok .pubkey) ∧
    ((∀ t, type_layout (f + 1) (.vec t) types =
        (type_layout f t types).map .vec) ∧
     (∀ t, type_layout (f + 1) (.option t) types =
        (type_layout f t types).map .option) ∧
     (∀ t n, type_layout (f + 1) (.array t n) types =
        (type_layout f t types).map (fun ly => .array ly n)) ∧
     (∀ d td, types.filter (fun x => x.name == d) = [td] →
        type_layout (f + 1) (.defined d) types =
          typedef_layout_without_field_name f td types) ∧
     (∀ descr, type_layout (f + 1) (.other descr) types =
        .error ("Type " ++ descr ++ " not implemented yet"))) ∧
    ((∀ g v bsx, encodeLy (g + 1) Ly.bool v = some bsx → bsx.length = 1) ∧
     (∀ g w n bsx, encodeLy (g + 1) (.uint w) (.vint n) = some bsx →
        bsx.length = w) ∧
     (∀ g w n bsx, encodeLy (g + 1) (.sint w) (.vint n) = some bsx →
        bsx.length = w) ∧
     (∀ g w bits bsx, encodeLy (g + 1) (.float w) (.vfloat bits) = some bsx →
        bsx.length = w) ∧
     (∀ g bs0 bsx, encodeLy (g + 1) Ly.pubkey (.vpubkey bs0) = some bsx →
        bsx.length = 32) ∧
     (∀ g bs0 bsx, encodeLy (g + 1) Ly.bytes (.vbytes bs0) = some bsx →
        bsx = leBytes 4 bs0.length ++ bs0) ∧
     (∀ g bs0 bsx, encodeLy (g + 1) Ly.string (.vstr bs0) = some bsx →
        bsx = leBytes 4 bs0.length ++ bs0)) ∧
    ((∀ g inner vs bsx, encodeLy (g + 1) (.vec inner) (.vlist vs) = some bsx →
        ∃ body, encodeList g inner vs = some body ∧
          bsx = leBytes 4 vs.length ++ body) ∧
     (∀ g inner, encodeLy (g + 1) (.option inner) .vnone = some [0]) ∧
     (∀ g inner v bsx, encodeLy (g + 1) (.option inner) (.vsome v) = some bsx →
        ∃ body, encodeLy g inner v = some body ∧ bsx = 1 :: body) ∧
     (∀ g inner n vs bsx,
        encodeLy (g + 1) (.array inner n) (.vlist vs) = some bsx →
        vs.length = n ∧ encodeList g inner vs = some bsx)) := by
  refine ⟨?_, ⟨?_, ?_, ?_, ?_, ?_⟩, ⟨?_, ?_, ?_, ?_, ?_, ?_, ?_⟩,
    ⟨?_, ?_, ?_, ?_⟩⟩
  · refine ⟨?_, ?_, ?_, ?_, ?_, ?_, ?_, ?_, ?_, ?_, ?_, ?_, ?_, ?_, ?_, ?_⟩ <;>
      simp [type_layout, FIELD_TYPE_MAP]
  · intro t
    simp [type_layout]
  · intro t
    simp [type_layout]
  · intro t n
    simp [type_layout]
  · intro d td hf
    have hne : types ≠ [] := by
      rintro rfl
      simp at hf
    have hemp : types.isEmpty = false := by
      cases types with
      | nil => exact absurd rfl hne
      | cons a l => rfl
    simp only [type_layout, hemp, Bool.false_eq_true, if_false, hf]
  · intro descr
    simp [type_layout]
  · intro g v bsx he
    cases v <;> simp only [encodeLy] at he <;> cases he <;> rfl
  · intro g w n bsx he
    simp only [encodeLy] at he
    split at he
    · cases he; exact leBytes_length _ _
    · simp at he
  · intro g w n bsx he
    simp only [encodeLy] at he
    split at he
    · cases he; exact leBytes_length _ _
    · simp at he
  · intro g w bits bsx he
    simp only [encodeLy] at he
    split at he
    · cases he; exact leBytes_length _ _
    · simp at he
  · intro g bs0 bsx he
    simp only [encodeLy] at he
    split at he
    · cases he; assumption
    · simp at he
  · intro g bs0 bsx he
    simp only [encodeLy] at he
    split at he
    · cases he; rfl
    · simp at he
  · intro g bs0 bsx he
    simp only [encodeLy] at he
    split at he
    · cases he; rfl
    · simp at he
  · intro g inner vs bsx he
    simp only [encodeLy] at he
    split at he
    · cases hb : encodeList g inner vs with
      | none => rw [hb] at he; simp at he
      | some body =>
        rw [hb] at he
        simp only [Option.map_some', Option.some.injEq] at he
        exact ⟨body, rfl, he.symm⟩
    · simp at he
  · intro g inner
    simp [encodeLy]
  · intro g inner v bsx he
    simp only [encodeLy] at he
    cases hb : encodeLy g inner v with
    | none => rw [hb] at he; simp at he
    | some body =>
      rw [hb] at he
      simp only [Option.map_some', Option.some.injEq] at he
      exact ⟨body, rfl, he.symm⟩
  · intro g inner n vs bsx he
    simp only [encodeLy] at he
    split at he
    · exact ⟨by assumption, he⟩
    · simp at he

/-- Witness for C6: the conditional conjuncts applied at concrete inputs. -/
theorem C6_layout_table_witness :
    type_layout 3 (.defined "T") [⟨"T", .struct []⟩] =
      typedef_layout_without_field_name 2 ⟨"T", .struct []⟩
        [⟨"T", .struct []⟩] ∧
    ([2, 3] : List Nat).length = 2 ∧
    type_layout 3 (.other "HashMap") [] =
      .error ("Type " ++ "HashMap" ++ " not implemented yet") :=
  ⟨((C6_layout_table 2 [⟨"T", .struct []⟩]).2.1.2.2.2.1 "T"
      ⟨"T", .struct []⟩ (by decide)),
   ((C6_layout_table 2 []).2.2.1.2.1 9 2 770 [2, 3] (by decide)),
   ((C6_layout_table 2 []).2.1.2.2.2.2 "HashMap")⟩

/-- **C7.** A derived enum layout carries one entry per variant in
declaration order; a variant's payload is a named-field struct when its
non-empty field list opens with a named field, a positional tuple when it
opens with a bare type, and nothing when the list is absent (an empty list
yields an empty tuple struct, also contributing no bytes); encoding any
valid enum value emits the variant's index as the single leading byte,
followed by exactly the payload bytes. -/
theorem C7_enum_layout (f : Nat) (nm : String) (variants : List EnumVariant)
    (types : List IdlTypeDefinition) (ely : Ly)
    (h : handle_enum_variants f variants types nm = .ok ely) :
    ∃ vls, ely = .enum nm vls ∧ vls.length = variants.length ∧
      (∀ (i : Nat) (var : EnumVariant), variants[i]? = some var →
        ∃ vl : String × Option Ly, vls[i]? = some vl ∧ vl.1 = var.name ∧
          (var.fields = none → vl.2 = none) ∧
          (var.fields = some [] → vl.2 = some (.tupleStruct [])) ∧
          (∀ fld rest, var.fields = some (Sum.inl fld :: rest) →
            ∃ g ps, named_layouts g (Sum.inl fld :: rest) types = .ok ps ∧
              vl.2 = some (.cstruct ps)) ∧
          (∀ t rest, var.fields = some (Sum.inr t :: rest) →
            ∃ g ts, tuple_layouts g (Sum.inr t :: rest) types = .ok ts ∧
              vl.2 = some (.tupleStruct ts))) ∧
      (∀ g vn payload bsx,
        encodeLy (g + 1) (.enum nm vls) (.venum vn payload) = some bsx →
        ∃ idx pl, findVariant vls vn = some (idx, pl) ∧ idx < 256 ∧
          vls[idx]? = some (vn, pl) ∧
          ((pl = none ∧ payload = none ∧ bsx = [idx]) ∨
           (∃ ply pv body, pl = some ply ∧ payload = some pv ∧
              encodeLy g ply pv = some body ∧ bsx = idx :: body))) ∧
      (∀ g, encodeLy (g + 2) (.tupleStruct []) (.vlist []) = some []) := by
  cases f with
  | zero => simp [handle_enum_variants] at h
  | succ f =>
    simp only [handle_enum_variants] at h
    cases hvl : variant_layouts f variants types with
    | error e => rw [hvl] at h; simp [Except.map] at h
    | ok vls =>
      rw [hvl] at h
      simp only [Except.map, Except.ok.injEq] at h
      subst h
      obtain ⟨hlen, hget⟩ := variant_layouts_get types f variants vls hvl
      refine ⟨vls, rfl, hlen, ?_, ?_, ?_⟩
      · intro i var hi
        obtain ⟨g, vl, h1, h2⟩ := hget i var hi
        obtain ⟨ha, hb, hc, hd, he⟩ := variant_layout_spec types g var vl h2
        exact ⟨vl, h1, ha, hb, hc, hd, he⟩
      · intro g vn payload bsx he
        cases payload with
        | none =>
          simp only [encodeLy] at he
          cases hfv : findVariant vls vn with
          | none => rw [hfv] at he; simp at he
          | some r =>
            obtain ⟨idx, pl⟩ := r
            rw [hfv] at he
            cases pl with
            | some ply => simp at he
            | none =>
              dsimp only at he
              by_cases hidx : idx < 256
              · rw [if_pos hidx] at he
                simp only [Option.some.injEq] at he
                subst he
                exact ⟨idx, none, rfl, hidx,
                  findVariant_get vls vn idx none hfv,
                  Or.inl ⟨rfl, rfl, rfl⟩⟩
              · rw [if_neg hidx] at he
                simp at he
        | some pv =>
          simp only [encodeLy] at he
          cases hfv : findVariant vls vn with
          | none => rw [hfv] at he; simp at he
          | some r =>
            obtain ⟨idx, pl⟩ := r
            rw [hfv] at he
            cases pl with
            | none => simp at he
            | some ply =>
              dsimp only at he
              by_cases hidx : idx < 256
              · rw [if_pos hidx] at he
                cases hb : encodeLy g ply pv with
                | none => rw [hb] at he; simp at he
                | some body =>
                  rw [hb] at he
                  simp only [Option.map_some', Option.some.injEq] at he
                  subst he
                  exact ⟨idx, some ply, rfl, hidx,
                    findVariant_get vls vn idx (some ply) hfv,
                    Or.inr ⟨ply, pv, body, rfl, rfl, hb, rfl⟩⟩
              · rw [if_neg hidx] at he
                simp at he
      · intro g
        simp [encodeLy, encodeItems]

/-- Witness for C7: an enum with one unit, one positional and one named
variant derives the expected layout with indices 0, 1, 2. -/
theorem C7_enum_layout_witness :
    ∃ vls, Ly.enum "E"
        [("A", none), ("B", some (.tupleStruct [.uint 1])),
         ("C", some (.cstruct [("x", .uint 1)]))] = .enum "E" vls ∧
      vls.length = 3 := by
  obtain ⟨vls, h1, h2, -, -, -⟩ :=
    C7_enum_layout 10 "E"
      [⟨"A", none⟩, ⟨"B", some [Sum.inr .u8]⟩,
       ⟨"C", some [Sum.inl ⟨"x", .u8⟩]⟩] []
      (.enum "E" [("A", none), ("B", some (.tupleStruct [.uint 1])),
                  ("C", some (.cstruct [("x", .uint 1)]))]) (by rfl)
  exact ⟨vls, h1, by simpa using h2⟩

/-- **C5.** Resolving `Defined(name)` succeeds only when exactly one type
definition carries that name: an empty (or absent) type list fails with
"User defined types not provided"; zero or several matches fail with an
error naming the unresolved type; a unique match resolves to that
definition's layout. -/
theorem C5_defined_resolution (f : Nat) (d : String)
    (types : List IdlTypeDefinition) :
    (types = [] →
      type_layout (f + 1) (.defined d) types =
        .error "User defined types not provided") ∧
    (types ≠ [] → (types.filter (fun td => td.name == d)).length ≠ 1 →
      type_layout (f + 1) (.defined d) types =
        .error ("Type not found " ++ d)) ∧
    (∀ td, types.filter (fun td => td.name == d) = [td] →
      type_layout (f + 1) (.defined d) types =
        typedef_layout_without_field_name f td types) := by
  refine ⟨?_, ?_, ?_⟩
  · rintro rfl
    simp [type_layout]
  · intro hne hlen
    have hemp : types.isEmpty = false := by
      cases types with
      | nil => exact absurd rfl hne
      | cons a l => rfl
    simp only [type_layout, hemp, Bool.false_eq_true, if_false]
    rcases hf : types.filter (fun td => td.name == d) with _ | ⟨td, _ | ⟨td2, rest⟩⟩
    · rw [hf]
    · rw [hf] at hlen
      simp at hlen
    · rw [hf]
  · intro td hf
    have hne : types ≠ [] := by
      rintro rfl
      simp at hf
    have hemp : types.isEmpty = false := by
      cases types with
      | nil => exact absurd rfl hne
      | cons a l => rfl
    simp only [type_layout, hemp, Bool.false_eq_true, if_false, hf]

/-- Witness for C5: `Defined("Ghost")` with no `Ghost` entry fails naming
`Ghost`; with a unique `Ghost` entry it resolves. -/
theorem C5_defined_resolution_witness :
    type_layout (4 + 1) (.defined "Ghost") [⟨"Blah", .struct []⟩] =
      .error ("Type not found " ++ "Ghost") ∧
    type_layout (4 + 1) (.defined "Ghost") [⟨"Ghost", .struct []⟩] =
      typedef_layout_without_field_name 4 ⟨"Ghost", .struct []⟩
        [⟨"Ghost", .struct []⟩] :=
  ⟨(C5_defined_resolution 4 "Ghost" [⟨"Blah", .struct []⟩]).2.1
      (by decide) (by decide),
   (C5_defined_resolution 4 "Ghost" [⟨"Ghost", .struct []⟩]).2.2
      ⟨"Ghost", .struct []⟩ (by decide)⟩

/-- **C8 counterexample.** A record supplying the three-byte discriminator
`[1,2,3]` is not rejected: the extraction returns it and coder construction
uses it verbatim — no length-8 validation exists. -/
theorem C8_counterexample :
    get_account_discriminator
      ⟨"Counter", some [1, 2, 3], some ⟨"Counter", .struct []⟩⟩ =
      some [1, 2, 3] ∧
    accountsCoderInit 3
      [⟨"Counter", some [1, 2, 3], some ⟨"Counter", .struct []⟩⟩] [] =
      .ok ⟨[("Counter", .cstruct [])], [("Counter", [1, 2, 3])],
           [([1, 2, 3], "Counter")], [([1, 2, 3], .cstruct [])]⟩ :=
  ⟨rfl, rfl⟩

/-- **C8 (amended).** A non-empty supplied discriminator takes precedence
over derivation and is used verbatim with NO length validation; its
elements must lie in 0..255 only because the `bytes(...)` conversion fails
otherwise; an absent or empty sequence reports as absent, so the
discriminator is derived from the name. -/
theorem C8_discriminator_extraction (acc : AccountRecord) :
    (acc.discriminator = none → get_account_discriminator acc = none) ∧
    (acc.discriminator = some [] → get_account_discriminator acc = none) ∧
    (∀ l, acc.discriminator = some l → l ≠ [] →
      get_account_discriminator acc = some l) ∧
    (∀ l, acc.discriminator = some l → l ≠ [] → l.all (· < 256) = true →
      buildNameToDisc [acc] [] = .ok [(acc.name, l)]) ∧
    (∀ l, acc.discriminator = some l → l.all (· < 256) = false →
      buildNameToDisc [acc] [] = .error "bytes must be in range(0, 256)") ∧
    (acc.discriminator = none ∨ acc.discriminator = some [] →
      buildNameToDisc [acc] [] =
        .ok [(acc.name, account_discriminator acc.name)]) := by
  refine ⟨?_, ?_, ?_, ?_, ?_, ?_⟩
  · intro h
    simp [get_account_discriminator, h]
  · intro h
    simp [get_account_discriminator, h]
  · intro l h hne
    simp [get_account_discriminator, h, List.isEmpty_iff, hne]
  · intro l h hne hall
    have hemp : l.isEmpty = false := by
      cases l with
      | nil => exact absurd rfl hne
      | cons a t => rfl
    simp [buildNameToDisc, accountDisc, get_account_discriminator, h, hemp,
      bytesOf, hall, dictInsert]
  · intro l h hall
    have hne : l ≠ [] := by
      rintro rfl
      simp at hall
    have hemp : l.isEmpty = false := by
      cases l with
      | nil => exact absurd rfl hne
      | cons a t => rfl
    simp [buildNameToDisc, accountDisc, get_account_discriminator, h, hemp,
      bytesOf, hall]
  · intro h
    rcases h with h | h <;>
      simp [buildNameToDisc, accountDisc, get_account_discriminator, h,
        dictInsert]

/-- Witness for C8 (amended): all three regimes at concrete records. -/
theorem C8_discriminator_extraction_witness :
    get_account_discriminator ⟨"A", some [1, 2, 3], none⟩ = some [1, 2, 3] ∧
    buildNameToDisc [⟨"A", some [1, 2, 3], none⟩] [] = .ok [("A", [1, 2, 3])] ∧
    buildNameToDisc [⟨"A", some [1, 999], none⟩] [] =
      .error "bytes must be in range(0, 256)" ∧
    buildNameToDisc [⟨"A", none, none⟩] [] =
      .ok [("A", account_discriminator "A")] :=
  ⟨(C8_discriminator_extraction ⟨"A", some [1, 2, 3], none⟩).2.2.1
      [1, 2, 3] rfl (by decide),
   (C8_discriminator_extraction ⟨"A", some [1, 2, 3], none⟩).2.2.2.1
      [1, 2, 3] rfl (by decide) (by decide),
   (C8_discriminator_extraction ⟨"A", some [1, 999], none⟩).2.2.2.2.1
      [1, 999] rfl (by decide),
   (C8_discriminator_extraction ⟨"A", none, none⟩).2.2.2.2.2
      (Or.inl rfl)⟩

/-- **C10.** An event record with no embedded field list whose name matches
no types entry does not fail: `_event_layout` substitutes an empty struct
(zero fields, consuming and producing no payload bytes), and `EventCoder`
construction over such an event succeeds, mapping its discriminator to
that empty layout. -/
theorem C10_missing_event_type (f : Nat) (ev : EventRecord)
    (types : List IdlTypeDefinition)
    (hf : ev.fields = none)
    (hn : types.find? (fun td => td.name == ev.name) = none) :
    event_layout (f + 2) ev types = .ok (.cstruct []) ∧
    (∀ g bs, decodeLy (g + 2) (.cstruct []) bs = some (.vstruct [], bs)) ∧
    (∀ g, encodeLy (g + 2) (.cstruct []) (.vstruct []) = some []) ∧
    (∀ l, ev.discriminator = some l → l ≠ [] → l.all (· < 256) = true →
      eventCoderInit (f + 2) [ev] types =
        .ok ⟨[(ev.name, .cstruct [])], [(l, ev.name)], [(l, .cstruct [])]⟩) ∧
    (ev.discriminator = none →
      eventCoderInit (f + 2) [ev] types =
        .ok ⟨[(ev.name, .cstruct [])],
             [(event_discriminator ev.name, ev.name)],
             [(event_discriminator ev.name, .cstruct [])]⟩) := by
  have hev : event_layout (f + 2) ev types = .ok (.cstruct []) := by
    simp [event_layout, hf, hn, typedef_layout_without_field_name, field_layouts,
      Except.map]
  refine ⟨hev, ?_, ?_, ?_, ?_⟩
  · intro g bs
    simp [decodeLy, decodeFields]
  · intro g
    simp [encodeLy, encodeFields]
  · intro l h hne hall
    have hemp : l.isEmpty = false := by
      cases l with
      | nil => exact absurd rfl hne
      | cons a t => rfl
    simp [eventCoderInit, buildEventLayouts, hev, buildEventDiscs, eventDisc,
      get_event_discriminator, h, hemp, bytesOf, hall, buildEventDiscToLayout,
      dictInsert, alookup]
  · intro h
    simp [eventCoderInit, buildEventLayouts, hev, buildEventDiscs, eventDisc,
      get_event_discriminator, h, buildEventDiscToLayout, dictInsert, alookup]

/-- Witness for C10: a concrete spec-dialect event `Ghosted` absent from
the types list. -/
theorem C10_missing_event_type_witness :
    event_layout 5 ⟨"Ghosted", none, none⟩ [⟨"Other", .struct []⟩] =
      .ok (.cstruct []) ∧
    eventCoderInit 5 [⟨"Ghosted", none, none⟩] [⟨"Other", .struct []⟩] =
      .ok ⟨[("Ghosted", .cstruct [])],
           [(event_discriminator "Ghosted", "Ghosted")],
           [(event_discriminator "Ghosted", .cstruct [])]⟩ :=
  ⟨(C10_missing_event_type 3 ⟨"Ghosted", none, none⟩ [⟨"Other", .struct []⟩]
      rfl (by decide)).1,
   (C10_missing_event_type 3 ⟨"Ghosted", none, none⟩ [⟨"Other", .struct []⟩]
      rfl (by decide)).2.2.2.2 rfl⟩

end AnchorPy
